import Mathlib

/-!
Verification of the pcurl command-line HTTP client (src/index.ts).

The embedding models JavaScript strings as `List Char` and translates the
program's single `action` handler into pure Lean functions:

* header/auth/body normalization (`parseHeaders`, `parseAuth`, `selectData`,
  `injectContentType`, `buildRequest`) from src/index.ts lines 35-77;
* response rendering (`renderBody`, `runAction`) from lines 81-139;
* the JavaScript platform pieces the program delegates to: `String.prototype.split`
  (`jsSplit`), `String.prototype.trim` (`trimChars`), plain-object property
  update/lookup (`recordSet`/`recordGet`), `JSON.stringify(v, null, 2)`
  (`jstringify`) and `JSON.parse` (`jsonParse`).

Modelling notes (platform, not repository code):
* JSON numbers are modelled as integers; fractional/exponent literals are out
  of scope of every claim considered here.
* `cli-highlight` only wraps tokens in ANSI color escapes and preserves the
  text content, so `highlightJson` is the identity on the modelled text.
* `chalk` coloring likewise only adds ANSI escapes and is dropped.
-/

abbrev JStr := List Char

/-- Whitespace removed by the JavaScript `String.prototype.trim`. -/
def isTrimWs (c : Char) : Bool :=
  c = ' ' || c = '\t' || c = '\n' || c = '\r' || c = '\x0b' || c = '\x0c'

/-- Model of `String.prototype.trim`: drop whitespace at both ends. -/
def trimChars (s : JStr) : JStr :=
  ((s.dropWhile isTrimWs).reverse.dropWhile isTrimWs).reverse

/-- Model of `String.prototype.split` with a one-character separator. -/
def jsSplit (sep : Char) : JStr → List JStr
  | [] => [[]]
  | c :: cs =>
    if c = sep then [] :: jsSplit sep cs
    else
      match jsSplit sep cs with
      | t :: ts => (c :: t) :: ts
      | [] => [[c]]

/-- Model of `Array.prototype.join` with a one-character separator. -/
def joinSep (sep : Char) : List JStr → JStr
  | [] => []
  | [x] => x
  | x :: xs => x ++ sep :: joinSep sep xs

/-- Property lookup on a JavaScript plain object with string keys
(`o[k]`, giving `undefined` when the key is absent). -/
def recordGet {α : Type} : List (JStr × α) → JStr → Option α
  | [], _ => none
  | kv :: rest, k => if kv.1 = k then some kv.2 else recordGet rest k

/-- Property assignment on a JavaScript plain object: an existing key keeps
its position and gets the new value, a new key is appended. -/
def recordSet {α : Type} : List (JStr × α) → JStr → α → List (JStr × α)
  | [], k, v => [(k, v)]
  | kv :: rest, k, v =>
    if kv.1 = k then (kv.1, v) :: rest else kv :: recordSet rest k v

/-- Truthiness of a JavaScript string-or-undefined value: `undefined` and
the empty string are falsy. -/
def strTruthy : Option JStr → Bool
  | none => false
  | some s => !s.isEmpty

/-- The JavaScript `||` operator on string-or-undefined values. -/
def jsOr (a b : Option JStr) : Option JStr := if strTruthy a then a else b

/-- Characters up to (excluding) the first colon. -/
def beforeColon (s : JStr) : JStr := s.takeWhile (fun c => c ≠ ':')

/-- Characters strictly after the first colon. -/
def afterColon (s : JStr) : JStr := (s.dropWhile (fun c => c ≠ ':')).tail

/-- Whether the string contains a colon. -/
def hasColon (s : JStr) : Bool := decide (':' ∈ s)

/-! ## JSON values -/

/-- JSON values as delivered by `JSON.parse` (numbers restricted to
integers, see the module comment). -/
inductive Json where
  | null
  | bool (b : Bool)
  | num (n : Int)
  | str (s : JStr)
  | arr (elems : List Json)
  | obj (entries : List (JStr × Json))

instance : Inhabited Json := ⟨Json.null⟩

/-- Whether the value is a JSON string. -/
def Json.isStr : Json → Bool
  | .str _ => true
  | _ => false

/-- Decimal digit character. -/
def digCh (n : Nat) : Char :=
  if n = 0 then '0' else if n = 1 then '1' else if n = 2 then '2'
  else if n = 3 then '3' else if n = 4 then '4' else if n = 5 then '5'
  else if n = 6 then '6' else if n = 7 then '7' else if n = 8 then '8' else '9'

/-- Lower-case hexadecimal digit character. -/
def hexCh (n : Nat) : Char :=
  if n = 10 then 'a' else if n = 11 then 'b' else if n = 12 then 'c'
  else if n = 13 then 'd' else if n = 14 then 'e' else if n = 15 then 'f'
  else digCh n

/-- Fuel-driven decimal printer for naturals (most significant digit first). -/
def natToCharsAux : Nat → Nat → List Char
  | 0, _ => []
  | fuel + 1, n =>
    if n < 10 then [digCh n] else natToCharsAux fuel (n / 10) ++ [digCh (n % 10)]

/-- Decimal representation of a natural number. -/
def natToChars (n : Nat) : List Char := natToCharsAux (n + 1) n

/-- Decimal representation of an integer, as printed by `JSON.stringify`. -/
def intToChars (n : Int) : List Char :=
  if n < 0 then '-' :: natToChars n.natAbs else natToChars n.toNat

/-- Escape of one character inside a JSON string literal, as produced by
`JSON.stringify`. -/
def escChar (c : Char) : List Char :=
  if c = '"' then ['\\', '"']
  else if c = '\\' then ['\\', '\\']
  else if c = '\x08' then ['\\', 'b']
  else if c = '\t' then ['\\', 't']
  else if c = '\n' then ['\\', 'n']
  else if c = '\x0c' then ['\\', 'f']
  else if c = '\r' then ['\\', 'r']
  else if c.toNat < 32 then ['\\', 'u', '0', '0', hexCh (c.toNat / 16), hexCh (c.toNat % 16)]
  else [c]

/-- Escape of a whole string body. -/
def escape (s : JStr) : List Char := (s.map escChar).flatten

/-- A quoted JSON string literal. -/
def quoteStr (s : JStr) : List Char := '"' :: escape s ++ ['"']

/-- Indentation produced by `JSON.stringify(v, null, 2)` at nesting depth d. -/
def indentSp (d : Nat) : List Char := List.replicate (2 * d) ' '

mutual

/-- Model of `JSON.stringify(v, null, 2)` at nesting depth d. -/
def strJ (d : Nat) : Json → List Char
  | .str s => quoteStr s
  | .num n => intToChars n
  | .bool false => ['f', 'a', 'l', 's', 'e']
  | .bool true => ['t', 'r', 'u', 'e']
  | .null => ['n', 'u', 'l', 'l']
  | .arr [] => ['[', ']']
  | .arr (x :: xs) =>
      '[' :: '\n' :: (indentSp (d + 1) ++ strJ (d + 1) x ++ strItems (d + 1) xs
        ++ '\n' :: (indentSp d ++ [']']))
  | .obj [] => ['{', '}']
  | .obj ((k, v) :: es) =>
      '{' :: '\n' :: (indentSp (d + 1) ++ quoteStr k ++ ':' :: ' ' :: strJ (d + 1) v
        ++ strEntries (d + 1) es ++ '\n' :: (indentSp d ++ ['}']))

/-- Remaining array items, each preceded by a comma, newline and indentation. -/
def strItems (d : Nat) : List Json → List Char
  | [] => []
  | x :: xs => ',' :: '\n' :: (indentSp d ++ strJ d x ++ strItems d xs)

/-- Remaining object members, each preceded by a comma, newline and indentation. -/
def strEntries (d : Nat) : List (JStr × Json) → List Char
  | [] => []
  | (k, v) :: es =>
      ',' :: '\n' :: (indentSp d ++ quoteStr k ++ ':' :: ' ' :: strJ d v ++ strEntries d es)

end

/-- Model of `JSON.stringify(v, null, 2)`. -/
def jstringify (v : Json) : List Char := strJ 0 v

/-! ## JSON parsing, as done by `JSON.parse` -/

/-- Whitespace accepted between JSON tokens by `JSON.parse`. -/
def isJsonWs (c : Char) : Bool :=
  c = ' ' || c = '\t' || c = '\n' || c = '\r'

/-- Skip inter-token whitespace. -/
def skipWs (cs : List Char) : List Char := cs.dropWhile isJsonWs

/-- Decimal digit test. -/
def isDig (c : Char) : Bool := '0' ≤ c && c ≤ '9'

/-- Value of a decimal digit character. -/
def dval (c : Char) : Nat := c.toNat - 48

/-- Consume a run of decimal digits, extending the accumulator. -/
def parseDigits : List Char → Nat → Nat × List Char
  | [], acc => (acc, [])
  | c :: cs, acc => if isDig c then parseDigits cs (10 * acc + dval c) else (acc, c :: cs)

/-- Value of a hexadecimal digit character. -/
def hexVal (c : Char) : Option Nat :=
  if '0' ≤ c && c ≤ '9' then some (c.toNat - 48)
  else if 'a' ≤ c && c ≤ 'f' then some (c.toNat - 87)
  else if 'A' ≤ c && c ≤ 'F' then some (c.toNat - 55)
  else none

/-- Single-character escapes accepted after a backslash in a JSON string. -/
def unescMap (c : Char) : Option Char :=
  if c = '"' then some '"'
  else if c = '\\' then some '\\'
  else if c = '/' then some '/'
  else if c = 'b' then some '\x08'
  else if c = 't' then some '\t'
  else if c = 'n' then some '\n'
  else if c = 'f' then some '\x0c'
  else if c = 'r' then some '\r'
  else none

/-- Parse the body of a JSON string literal after the opening quote,
returning the decoded content and the input after the closing quote. -/
def parseStr : List Char → Option (List Char × List Char)
  | [] => none
  | c :: cs =>
    if c = '"' then some ([], cs)
    else if c = '\\' then
      match cs with
      | [] => none
      | e :: cs' =>
        if e = 'u' then
          match cs' with
          | h1 :: h2 :: h3 :: h4 :: cs'' =>
            match hexVal h1, hexVal h2, hexVal h3, hexVal h4 with
            | some a, some b, some g, some f =>
              match parseStr cs'' with
              | some (s, r) => some (Char.ofNat (4096 * a + 256 * b + 16 * g + f) :: s, r)
              | none => none
            | _, _, _, _ => none
          | _ => none
        else
          match unescMap e with
          | some u =>
            match parseStr cs' with
            | some (s, r) => some (u :: s, r)
            | none => none
          | none => none
    else if c.toNat < 32 then none
    else
      match parseStr cs with
      | some (s, r) => some (c :: s, r)
      | none => none

/-- Build a JSON object from parsed members the way the JavaScript parser
assigns properties: later duplicate keys overwrite earlier values in place. -/
def objFromList (es : List (JStr × Json)) : List (JStr × Json) :=
  es.foldl (fun acc kv => recordSet acc kv.1 kv.2) []

mutual

/-- Parse one JSON value (after optional leading whitespace), fuel-driven. -/
def parseValue : Nat → List Char → Option (Json × List Char)
  | 0, _ => none
  | fuel + 1, cs =>
    match skipWs cs with
    | [] => none
    | c :: rest =>
      if c = 'n' then
        match rest with
        | c1 :: c2 :: c3 :: r =>
          if c1 = 'u' ∧ c2 = 'l' ∧ c3 = 'l' then some (.null, r) else none
        | _ => none
      else if c = 't' then
        match rest with
        | c1 :: c2 :: c3 :: r =>
          if c1 = 'r' ∧ c2 = 'u' ∧ c3 = 'e' then some (.bool true, r) else none
        | _ => none
      else if c = 'f' then
        match rest with
        | c1 :: c2 :: c3 :: c4 :: r =>
          if c1 = 'a' ∧ c2 = 'l' ∧ c3 = 's' ∧ c4 = 'e' then some (.bool false, r) else none
        | _ => none
      else if c = '"' then
        match parseStr rest with
        | some (s, r) => some (.str s, r)
        | none => none
      else if c = '-' then
        match rest with
        | d :: r =>
          if d = '0' then some (.num 0, r)
          else if isDig d then
            let p := parseDigits r (dval d)
            some (.num (-(p.1 : Int)), p.2)
          else none
        | [] => none
      else if c = '0' then some (.num 0, rest)
      else if isDig c then
        let p := parseDigits rest (dval c)
        some (.num (p.1 : Int), p.2)
      else if c = '[' then
        match skipWs rest with
        | [] => none
        | c1 :: r =>
          if c1 = ']' then some (.arr [], r)
          else
            match parseElems fuel (c1 :: r) with
            | some (xs, r2) => some (.arr xs, r2)
            | none => none
      else if c = '{' then
        match skipWs rest with
        | [] => none
        | c1 :: r =>
          if c1 = '}' then some (.obj [], r)
          else
            match parseMembers fuel (c1 :: r) with
            | some (es, r2) => some (.obj (objFromList es), r2)
            | none => none
      else none

/-- Parse the non-empty element list of a JSON array, up to and including
the closing bracket. -/
def parseElems : Nat → List Char → Option (List Json × List Char)
  | 0, _ => none
  | fuel + 1, cs =>
    match parseValue fuel cs with
    | some (v, r) =>
      match skipWs r with
      | [] => none
      | c2 :: r2 =>
        if c2 = ',' then
          match parseElems fuel r2 with
          | some (xs, r3) => some (v :: xs, r3)
          | none => none
        else if c2 = ']' then some ([v], r2)
        else none
    | none => none

/-- Parse the non-empty member list of a JSON object, up to and including
the closing brace. -/
def parseMembers : Nat → List Char → Option (List (JStr × Json) × List Char)
  | 0, _ => none
  | fuel + 1, cs =>
    match skipWs cs with
    | [] => none
    | c0 :: cs1 =>
      if c0 = '"' then
        match parseStr cs1 with
        | some (k, r) =>
          match skipWs r with
          | [] => none
          | c1 :: r2 =>
            if c1 = ':' then
              match parseValue fuel r2 with
              | some (v, r3) =>
                match skipWs r3 with
                | [] => none
                | c2 :: r4 =>
                  if c2 = ',' then
                    match parseMembers fuel r4 with
                    | some (es, r5) => some ((k, v) :: es, r5)
                    | none => none
                  else if c2 = '}' then some ([(k, v)], r4)
                  else none
              | none => none
            else none
        | none => none
      else none

end

/-- Model of `JSON.parse`: parse one value and require only whitespace after
it; any failure is the thrown `SyntaxError`, modelled as `none`. -/
def jsonParse (cs : List Char) : Option Json :=
  match parseValue (cs.length + 1) cs with
  | some (v, rest) => if skipWs rest = [] then some v else none
  | none => none

/-! ## The pcurl request builder (src/index.ts lines 35-77) -/

/-- The commander option bag for the flags pcurl declares (lines 19-32).
Booleans are false when the flag is absent; the method defaults to GET. -/
structure Options where
  request : JStr := ['G', 'E', 'T']
  header : List JStr := []
  data : Option JStr := none
  dataRaw : Option JStr := none
  dataBinary : Option JStr := none
  user : Option JStr := none
  insecure : Bool := false
  includeHdrs : Bool := false
  silent : Bool := false

/-- One iteration of the header `forEach` (lines 39-44): split on colons,
keep the entry only when the raw text before the first colon is non-empty
and a colon was present, trim the name, rejoin and trim the value. -/
def headerStep (acc : List (JStr × JStr)) (h : JStr) : List (JStr × JStr) :=
  match jsSplit ':' h with
  | [] => acc
  | key :: valueParts =>
    if key ≠ [] ∧ valueParts ≠ [] then
      recordSet acc (trimChars key) (trimChars (joinSep ':' valueParts))
    else acc

/-- Header parsing over all repeated header flags (lines 38-45). -/
def parseHeaders (hs : List JStr) : List (JStr × JStr) :=
  hs.foldl headerStep []

/-- Body selection `options.data || options.dataRaw || options.dataBinary`
(line 48). -/
def selectData (o : Options) : Option JStr := jsOr (jsOr o.data o.dataRaw) o.dataBinary

/-- Content-Type injection (lines 53-55): only when the selected data is
truthy and neither the exact key Content-Type nor content-type holds a
truthy value. -/
def injectContentType (dat : Option JStr) (hs : List (JStr × JStr)) : List (JStr × JStr) :=
  if strTruthy dat
      && !strTruthy (recordGet hs ("Content-Type".toList))
      && !strTruthy (recordGet hs ("content-type".toList)) then
    recordSet hs ("Content-Type".toList) ("application/json".toList)
  else hs

/-- Basic-auth split (line 60): array destructuring of `user.split(":")`,
so the password is the second segment and is undefined when no colon occurs. -/
def parseAuth (u : JStr) : JStr × Option JStr :=
  match jsSplit ':' u with
  | [] => ([], none)
  | username :: rest => (username, rest.head?)

/-- Auth handling (lines 58-62), guarded by truthiness of the user flag. -/
def buildAuth (o : Options) : Option (JStr × Option JStr) :=
  match o.user with
  | some u => if u ≠ [] then some (parseAuth u) else none
  | none => none

/-- The axios request configuration assembled by the action (lines 69-77). -/
structure RequestSpec where
  method : JStr
  url : JStr
  headers : List (JStr × JStr)
  data : Option JStr
  auth : Option (JStr × Option JStr)
  rejectUnauthorized : Bool

/-- Request construction from parsed options (lines 35-77). -/
def buildRequest (o : Options) (url : JStr) : RequestSpec :=
  let hs := parseHeaders o.header
  let dat := selectData o
  { method := o.request
    url := url
    headers := injectContentType dat hs
    data := dat
    auth := buildAuth o
    rejectUnauthorized := !o.insecure }

/-- The `validateStatus` callback passed to axios (line 76). -/
def validateStatus : Nat → Bool := fun _ => true

/-! ## The response side (src/index.ts lines 79-139) -/

/-- The response body as axios delivers it: either raw text, or a value the
client already decoded from JSON. -/
inductive JsData where
  | raw (s : JStr)
  | decoded (v : Json)

/-- String coercion of a decoded scalar, as used when the body value flows
into `JSON.parse` or `console.log`. The array and object cases are
unreachable in the program: structured data takes the stringify branch. -/
def scalarText : Json → JStr
  | .str s => s
  | .num n => intToChars n
  | .bool false => ['f', 'a', 'l', 's', 'e']
  | .bool true => ['t', 'r', 'u', 'e']
  | .null => ['n', 'u', 'l', 'l']
  | .arr _ => []
  | .obj _ => "[object Object]".toList

/-- Text of the body datum as coerced by JavaScript at the use sites. -/
def asText : JsData → JStr
  | .raw s => s
  | .decoded v => scalarText v

/-- The `isJsonHeader` test (lines 102-104): the content-type string is
truthy and contains the substring application/json. -/
def isJsonHdr : Option JStr → Bool
  | none => false
  | some s => !s.isEmpty && decide (("application/json".toList) <:+: s)

/-- Model of `cli-highlight`: adds ANSI color escapes only; the printed
text content is unchanged. -/
def highlightJson (s : JStr) : JStr := s

/-- Body rendering (lines 101-123): structured decoded values are
re-serialized with 2-space indentation; otherwise under a JSON content type
the text is parsed and pretty-printed on success and printed raw on parse
failure; otherwise the datum is printed as is. -/
def renderBody (ct : Option JStr) (dat : JsData) : JStr :=
  match dat with
  | .decoded (.arr xs) => highlightJson (jstringify (.arr xs))
  | .decoded (.obj es) => highlightJson (jstringify (.obj es))
  | d =>
    if isJsonHdr ct then
      match jsonParse (asText d) with
      | some j => highlightJson (jstringify j)
      | none => asText d
    else asText d

/-- The received response as the action sees it. Axios lower-cases response
header names; `protocol` is `response.request.protocol`. -/
structure AxiosResponse where
  status : Nat
  statusText : JStr
  headers : List (JStr × JStr)
  protocol : Option JStr := none
  data : JsData

/-- The protocol version piece of the status line (line 85):
`protocol?.split(":")[1] || "1.1"`. -/
def protoVersion (p : Option JStr) : JStr :=
  match p with
  | none => "1.1".toList
  | some s =>
    match (jsSplit ':' s).get? 1 with
    | some t => if t = [] then "1.1".toList else t
    | none => "1.1".toList

/-- The status line printed under the include flag (line 85). -/
def statusLine (r : AxiosResponse) : JStr :=
  ("HTTP/".toList) ++ protoVersion r.protocol
    ++ ' ' :: natToChars r.status ++ ' ' :: r.statusText

/-- The warning printed for status codes at or above 400 (lines 93-99). -/
def warnLine (status : Nat) (statusText : JStr) : JStr :=
  ("Warning: Request failed with status ".toList) ++ natToChars status ++ ' ' :: statusText

/-- The shape of the error the catch block inspects (lines 124-139). -/
structure AxiosFailure where
  response : Option (Nat × JStr) := none
  request : Bool := true
  message : JStr := []

/-- The error line printed by the catch block when not silent. -/
def errLine (e : AxiosFailure) : JStr :=
  match e.response with
  | some (st, stext) => ("Error: ".toList) ++ natToChars st ++ ' ' :: stext
  | none =>
    if e.request then "Error: No response received from server.".toList
    else ("Error: ".toList) ++ e.message

/-- What the wire produced: a full response, or a failure before one arrived. -/
inductive WireResult where
  | response (r : AxiosResponse)
  | failure (e : AxiosFailure)

/-- How the `await axios(config)` call resolves: a delivered response or a
thrown error. -/
inductive ClientOutcome where
  | ok (r : AxiosResponse)
  | err (e : AxiosFailure)

/-- Axios resolves a received response iff `validateStatus` accepts its
status code, and rejects with the transport failure otherwise. -/
def axiosOutcome : WireResult → ClientOutcome
  | .response r =>
    if validateStatus r.status then .ok r
    else .err { response := some (r.status, r.statusText), request := true, message := [] }
  | .failure e => .err e

/-- The observable result of one invocation: lines printed to each stream
and the process exit code. -/
structure ActionResult where
  stdout : List JStr
  stderr : List JStr
  exitCode : Nat

/-- The whole action handler after the request resolves (lines 79-139):
optional status line and headers, the status warning, the rendered body,
and the catch block with its silent-mode early exit. A normally completed
handler ends the process with exit code 0. -/
def runAction (o : Options) (outcome : ClientOutcome) : ActionResult :=
  match outcome with
  | .ok r =>
    let incl :=
      if o.includeHdrs then
        statusLine r :: (r.headers.map fun kv => kv.1 ++ ':' :: ' ' :: kv.2) ++ [[]]
      else []
    let warns :=
      if r.status ≥ 400 && !o.silent then [warnLine r.status r.statusText] else []
    let body := renderBody (recordGet r.headers ("content-type".toList)) r.data
    { stdout := incl ++ [body], stderr := warns, exitCode := 0 }
  | .err e =>
    if o.silent then { stdout := [], stderr := [], exitCode := 1 }
    else { stdout := [], stderr := [errLine e], exitCode := 1 }

/-! ## Well-formedness of parsed JSON -/

/-- No key occurs twice. -/
def keysUnique : List JStr → Bool
  | [] => true
  | k :: ks => !(decide (k ∈ ks)) && keysUnique ks

mutual

/-- Every object inside the value has pairwise distinct keys; values built
by `jsonParse` satisfy this by construction. -/
def jwf : Json → Bool
  | .null => true
  | .bool _ => true
  | .num _ => true
  | .str _ => true
  | .arr xs => jwfList xs
  | .obj es => keysUnique (es.map Prod.fst) && jwfMembers es

/-- Well-formedness of every element of a list of values. -/
def jwfList : List Json → Bool
  | [] => true
  | x :: xs => jwf x && jwfList xs

/-- Well-formedness of every member value. -/
def jwfMembers : List (JStr × Json) → Bool
  | [] => true
  | (_, v) :: es => jwf v && jwfMembers es

end

/-- Whether the response datum is a structured (object or array) value:
the `typeof response.data === "object" && response.data !== null` test of
src/index.ts line 106. -/
def isStructuredData : JsData → Bool
  | .decoded (.arr _) => true
  | .decoded (.obj _) => true
  | _ => false

/-- How a response body with on-the-wire text s can be delivered to the
action: as the raw text, or pre-decoded by the client from that text. -/
def deliveredAs (s : JStr) (dat : JsData) : Prop :=
  dat = JsData.raw s ∨ ∃ w, jsonParse s = some w ∧ dat = JsData.decoded w

/-- ASCII lower-casing of one character. -/
def asciiLower (c : Char) : Char :=
  if 'A' ≤ c ∧ c ≤ 'Z' then Char.ofNat (c.toNat + 32) else c

/-- ASCII lower-casing of a string, for stating case-insensitive matching. -/
def lowerStr (s : JStr) : JStr := s.map asciiLower

/-- Whether the input does not begin with a decimal digit (so a digit run
ends exactly there). -/
def headNotDig : List Char → Bool
  | [] => true
  | c :: _ => !isDig c

/-- Input shape handed to `parseElems`: a printed first element, the printed
remaining items, and the closing newline, indentation and bracket. -/
def ElemsArg (d e : Nat) (x : Json) (xs : List Json) (rest : List Char) : List Char :=
  strJ d x ++ (strItems d xs ++ '\n' :: (indentSp e ++ ']' :: rest))

/-- Input shape handed to `parseMembers`: a printed first member and the
printed remaining members with the closing brace. -/
def MembersArg (d e : Nat) (k : JStr) (v : Json) (es : List (JStr × Json))
    (rest : List Char) : List Char :=
  quoteStr k ++ ':' :: ' ' :: (strJ d v ++ (strEntries d es ++ '\n' :: (indentSp e ++ '}' :: rest)))

/-- At this fuel, `parseValue` reconstructs every printed well-formed value. -/
def PvalOK (fuel : Nat) : Prop :=
  ∀ (v : Json) (d : Nat) (rest : List Char), jwf v = true → headNotDig rest = true →
    (strJ d v ++ rest).length ≤ fuel → parseValue fuel (strJ d v ++ rest) = some (v, rest)

/-- At this fuel, `parseElems` reconstructs every printed non-empty item list. -/
def ElemsOK (fuel : Nat) : Prop :=
  ∀ (x : Json) (xs : List Json) (d e : Nat) (rest : List Char), jwfList (x :: xs) = true →
    (ElemsArg d e x xs rest).length < fuel →
    parseElems fuel (ElemsArg d e x xs rest) = some (x :: xs, rest)

/-- At this fuel, `parseMembers` reconstructs every printed non-empty member list. -/
def MembersOK (fuel : Nat) : Prop :=
  ∀ (k : JStr) (v : Json) (es : List (JStr × Json)) (d e : Nat) (rest : List Char),
    jwfMembers ((k, v) :: es) = true →
    (MembersArg d e k v es rest).length < fuel →
    parseMembers fuel (MembersArg d e k v es rest) = some ((k, v) :: es, rest)

/-! ## Lemmas about the JavaScript string primitives -/

theorem jsSplit_ne_nil (sep : Char) (s : JStr) : jsSplit sep s ≠ [] := by
  induction s with
  | nil => simp [jsSplit]
  | cons c cs ih =>
    by_cases h : c = sep
    · simp [jsSplit, h]
    · simp only [jsSplit, if_neg h]
      cases hs : jsSplit sep cs with
      | nil => exact absurd hs ih
      | cons t ts => simp

theorem jsSplit_of_not_mem (sep : Char) (s : JStr) (h : sep ∉ s) : jsSplit sep s = [s] := by
  induction s with
  | nil => simp [jsSplit]
  | cons c cs ih =>
    have hc : c ≠ sep := fun e => h (e ▸ List.mem_cons_self c cs)
    have hcs : sep ∉ cs := fun e => h (List.mem_cons_of_mem c e)
    simp [jsSplit, if_neg hc, ih hcs]

theorem jsSplit_of_mem (sep : Char) (s : JStr) (h : sep ∈ s) :
    jsSplit sep s =
      s.takeWhile (fun c => c ≠ sep) :: jsSplit sep ((s.dropWhile (fun c => c ≠ sep)).tail) := by
  induction s with
  | nil => cases h
  | cons c cs ih =>
    by_cases hc : c = sep
    · subst hc
      simp [jsSplit, List.takeWhile, List.dropWhile]
    · have hcs : sep ∈ cs := by
        cases h with
        | head => exact absurd rfl hc
        | tail _ hm => exact hm
      simp only [jsSplit, if_neg hc, ih hcs, List.takeWhile, List.dropWhile]
      simp [hc]

theorem joinSep_jsSplit (sep : Char) (s : JStr) : joinSep sep (jsSplit sep s) = s := by
  induction s with
  | nil => simp [jsSplit, joinSep]
  | cons c cs ih =>
    by_cases hc : c = sep
    · simp only [jsSplit, if_pos hc]
      cases hs : jsSplit sep cs with
      | nil => exact absurd hs (jsSplit_ne_nil sep cs)
      | cons t ts =>
        rw [hs] at ih
        simp [joinSep, ih, hc]
    · simp only [jsSplit, if_neg hc]
      cases hs : jsSplit sep cs with
      | nil => exact absurd hs (jsSplit_ne_nil sep cs)
      | cons t ts =>
        rw [hs] at ih
        cases ts with
        | nil => simpa [joinSep] using congrArg (c :: ·) ih
        | cons u us =>
          simp only [joinSep] at ih ⊢
          simp [ih]

theorem hasColon_iff (s : JStr) : hasColon s = true ↔ ':' ∈ s := by
  simp [hasColon]

theorem jsSplit_colon_of_mem (s : JStr) (h : ':' ∈ s) :
    jsSplit ':' s = beforeColon s :: jsSplit ':' (afterColon s) :=
  jsSplit_of_mem ':' s h

set_option maxHeartbeats 1000000 in
theorem recordGet_recordSet_self {α : Type} (m : List (JStr × α)) (k : JStr) (v : α) :
    recordGet (recordSet m k v) k = some v := by
  induction m with
  | nil => simp [recordGet, recordSet]
  | cons kv rest ih =>
    obtain ⟨k', v'⟩ := kv
    by_cases h : k' = k
    · simp [recordGet, recordSet, h]
    · simp [recordGet, recordSet, h, ih]

theorem recordGet_eq_none_iff {α : Type} (m : List (JStr × α)) (k : JStr) :
    recordGet m k = none ↔ k ∉ m.map Prod.fst := by
  induction m with
  | nil => simp [recordGet]
  | cons kv rest ih =>
    simp only [recordGet, List.map_cons, List.mem_cons, not_or]
    by_cases h : kv.1 = k
    · rw [if_pos h]
      apply iff_of_false
      · exact fun hx => Option.noConfusion hx
      · exact fun hx => hx.1 h.symm
    · rw [if_neg h, ih]
      constructor
      · exact fun hk => ⟨fun e => h e.symm, hk⟩
      · exact fun hx => hx.2

set_option maxHeartbeats 1000000 in
theorem recordSet_of_not_mem {α : Type} (m : List (JStr × α)) (k : JStr) (v : α)
    (h : recordGet m k = none) : recordSet m k v = m ++ [(k, v)] := by
  induction m with
  | nil => simp [recordSet]
  | cons kv rest ih =>
    obtain ⟨k', v'⟩ := kv
    by_cases hk : k' = k
    · simp [recordGet, hk] at h
    · simp only [recordGet, if_neg hk] at h
      simp [recordSet, hk, ih h]

theorem recordSet_keys_sub {α : Type} (m : List (JStr × α)) (k a : JStr) (v : α)
    (h : a ∈ (recordSet m k v).map Prod.fst) : a = k ∨ a ∈ m.map Prod.fst := by
  induction m with
  | nil =>
    simp only [recordSet, List.map_cons, List.map_nil, List.mem_singleton] at h
    exact Or.inl h
  | cons kv rest ih =>
    by_cases hk : kv.1 = k
    · simp only [recordSet, if_pos hk, List.map_cons, List.mem_cons] at h
      rcases h with h | h
      · exact Or.inl (h.trans hk)
      · exact Or.inr (List.mem_cons_of_mem _ h)
    · simp only [recordSet, if_neg hk, List.map_cons, List.mem_cons] at h
      rcases h with h | h
      · exact Or.inr (by rw [h]; exact List.mem_cons_self _ _)
      · rcases ih h with h' | h'
        · exact Or.inl h'
        · exact Or.inr (List.mem_cons_of_mem _ h')

set_option maxHeartbeats 1000000 in
theorem recordSet_keys_nodup {α : Type} (m : List (JStr × α)) (k : JStr) (v : α)
    (h : (m.map Prod.fst).Nodup) : ((recordSet m k v).map Prod.fst).Nodup := by
  induction m with
  | nil => simp [recordSet]
  | cons kv rest ih =>
    obtain ⟨k', v'⟩ := kv
    simp only [List.map_cons, List.nodup_cons] at h
    by_cases hk : k' = k
    · simp only [recordSet, if_pos hk, List.map_cons, List.nodup_cons]
      exact h
    · simp only [recordSet, if_neg hk, List.map_cons, List.nodup_cons]
      refine ⟨fun hm => ?_, ih h.2⟩
      rcases recordSet_keys_sub rest k k' v hm with h' | h'
      · exact hk h'
      · exact h.1 h'

/-! ## Lemmas about header parsing -/

theorem headerStep_of_no_colon (acc : List (JStr × JStr)) (h : JStr)
    (hc : hasColon h = false) : headerStep acc h = acc := by
  have hm : ':' ∉ h := by
    intro hmem
    rw [(hasColon_iff h).mpr hmem] at hc
    cases hc
  simp [headerStep, jsSplit_of_not_mem ':' h hm]

theorem headerStep_of_empty_name (acc : List (JStr × JStr)) (h : JStr)
    (hc : hasColon h = true) (he : beforeColon h = []) : headerStep acc h = acc := by
  have hm : ':' ∈ h := (hasColon_iff h).mp hc
  rw [headerStep, jsSplit_colon_of_mem h hm, he]
  simp

theorem headerStep_kept (acc : List (JStr × JStr)) (h : JStr)
    (hc : hasColon h = true) (hn : beforeColon h ≠ []) :
    headerStep acc h = recordSet acc (trimChars (beforeColon h)) (trimChars (afterColon h)) := by
  have hm : ':' ∈ h := (hasColon_iff h).mp hc
  rw [headerStep, jsSplit_colon_of_mem h hm]
  show (if beforeColon h ≠ [] ∧ jsSplit ':' (afterColon h) ≠ [] then
      recordSet acc (trimChars (beforeColon h))
        (trimChars (joinSep ':' (jsSplit ':' (afterColon h))))
    else acc) = _
  rw [if_pos ⟨hn, jsSplit_ne_nil ':' (afterColon h)⟩, joinSep_jsSplit]

theorem parseHeaders_snoc (hs : List JStr) (h : JStr) :
    parseHeaders (hs ++ [h]) = headerStep (parseHeaders hs) h := by
  simp [parseHeaders, List.foldl_append]

/-! ## Lemmas about auth, body selection and Content-Type injection -/

theorem takeWhile_eq_self_of_not_mem (sep : Char) (s : JStr) (h : sep ∉ s) :
    s.takeWhile (fun c => c ≠ sep) = s := by
  have hall : ∀ x ∈ s, ¬x = sep := fun x hx e => h (e ▸ hx)
  simp
  exact hall

theorem jsSplit_head (sep : Char) (s : JStr) :
    ∃ ts, jsSplit sep s = s.takeWhile (fun c => c ≠ sep) :: ts := by
  by_cases h : sep ∈ s
  · exact ⟨_, jsSplit_of_mem sep s h⟩
  · exact ⟨[], by rw [jsSplit_of_not_mem sep s h, takeWhile_eq_self_of_not_mem sep s h]⟩

theorem parseAuth_of_no_colon (u : JStr) (h : hasColon u = false) : parseAuth u = (u, none) := by
  have hm : ':' ∉ u := fun hmem => by rw [(hasColon_iff u).mpr hmem] at h; cases h
  rw [parseAuth, jsSplit_of_not_mem ':' u hm]
  rfl

theorem parseAuth_of_colon (u : JStr) (h : hasColon u = true) :
    parseAuth u = (beforeColon u, some (beforeColon (afterColon u))) := by
  rw [parseAuth, jsSplit_colon_of_mem u ((hasColon_iff u).mp h)]
  obtain ⟨ts, hts⟩ := jsSplit_head ':' (afterColon u)
  rw [hts]
  rfl

theorem injectContentType_pos (dat : Option JStr) (hs : List (JStr × JStr))
    (h1 : strTruthy dat = true)
    (h2 : strTruthy (recordGet hs ("Content-Type".toList)) = false)
    (h3 : strTruthy (recordGet hs ("content-type".toList)) = false) :
    injectContentType dat hs =
      recordSet hs ("Content-Type".toList) ("application/json".toList) := by
  unfold injectContentType
  rw [h1, h2, h3]
  rfl

theorem injectContentType_no_data (dat : Option JStr) (hs : List (JStr × JStr))
    (h : strTruthy dat = false) : injectContentType dat hs = hs := by
  simp [injectContentType, h]

theorem injectContentType_has_exact (dat : Option JStr) (hs : List (JStr × JStr))
    (h : strTruthy (recordGet hs ("Content-Type".toList)) = true) :
    injectContentType dat hs = hs := by
  unfold injectContentType
  rw [h]
  simp

theorem injectContentType_has_lower (dat : Option JStr) (hs : List (JStr × JStr))
    (h : strTruthy (recordGet hs ("content-type".toList)) = true) :
    injectContentType dat hs = hs := by
  unfold injectContentType
  rw [h]
  simp

theorem selectData_first (o : Options) (h : strTruthy o.data = true) :
    selectData o = o.data := by
  simp [selectData, jsOr, h]

theorem selectData_second (o : Options) (h1 : strTruthy o.data = false)
    (h2 : strTruthy o.dataRaw = true) : selectData o = o.dataRaw := by
  simp [selectData, jsOr, h1, h2]

theorem selectData_third (o : Options) (h1 : strTruthy o.data = false)
    (h2 : strTruthy o.dataRaw = false) : selectData o = o.dataBinary := by
  simp [selectData, jsOr, h1, h2]

theorem buildRequest_headers (o : Options) (url : JStr) :
    (buildRequest o url).headers = injectContentType (selectData o) (parseHeaders o.header) := rfl

theorem buildRequest_data (o : Options) (url : JStr) :
    (buildRequest o url).data = selectData o := rfl

theorem buildRequest_auth (o : Options) (url : JStr) :
    (buildRequest o url).auth = buildAuth o := rfl

/-! ## Decimal digit printing and parsing -/

theorem natToCharsAux_congr (f1 : Nat) : ∀ f2 n, n < f1 → n < f2 →
    natToCharsAux f1 n = natToCharsAux f2 n := by
  induction f1 with
  | zero => intro f2 n h1 _; omega
  | succ f ih =>
    intro f2 n h1 h2
    cases f2 with
    | zero => omega
    | succ g =>
      by_cases h : n < 10
      · simp [natToCharsAux, h]
      · have hd : n / 10 < n := Nat.div_lt_self (by omega) (by omega)
        simp only [natToCharsAux, if_neg h]
        rw [ih g (n / 10) (by omega) (by omega)]

theorem natToChars_eq (n : Nat) :
    natToChars n =
      if n < 10 then [digCh n] else natToChars (n / 10) ++ [digCh (n % 10)] := by
  by_cases h : n < 10
  · simp [natToChars, natToCharsAux, h]
  · rw [if_neg h]
    have hd : n / 10 < n := Nat.div_lt_self (by omega) (by omega)
    conv_lhs => rw [natToChars, natToCharsAux]
    rw [if_neg h]
    unfold natToChars
    congr 1
    exact natToCharsAux_congr n (n / 10 + 1) (n / 10) (by omega) (by omega)

theorem digCh_isDig (k : Nat) : isDig (digCh k) = true := by
  unfold digCh
  split_ifs <;> decide

theorem digCh_ne_zero (k : Nat) (h : 1 ≤ k) : ¬ digCh k = '0' := by
  unfold digCh
  split_ifs with h0 <;> try decide
  exact absurd h0 (by omega)

theorem dval_digCh (k : Nat) (h : k < 10) : dval (digCh k) = k := by
  unfold digCh
  split_ifs with h0 h1 h2 h3 h4 h5 h6 h7 h8
  · subst h0; decide
  · subst h1; decide
  · subst h2; decide
  · subst h3; decide
  · subst h4; decide
  · subst h5; decide
  · subst h6; decide
  · subst h7; decide
  · subst h8; decide
  · have h9 : k = 9 := by omega
    subst h9; decide

theorem isDig_not_ws (c : Char) (h : isDig c = true) : isJsonWs c = false := by
  by_contra hw
  rw [Bool.not_eq_false] at hw
  simp only [isJsonWs, Bool.or_eq_true, decide_eq_true_eq] at hw
  rcases hw with ((rfl | rfl) | rfl) | rfl <;> exact absurd h (by decide)

theorem isDig_ne_special (c : Char) (h : isDig c = true) :
    c ≠ 'n' ∧ c ≠ 't' ∧ c ≠ 'f' ∧ c ≠ '"' ∧ c ≠ '-' ∧ c ≠ '[' ∧ c ≠ '{' ∧
      c ≠ ']' ∧ c ≠ '}' ∧ c ≠ ',' := by
  refine ⟨?_, ?_, ?_, ?_, ?_, ?_, ?_, ?_, ?_, ?_⟩ <;>
    rintro rfl <;> exact absurd h (by decide)

theorem natToChars_all_digits (n : Nat) : ∀ c ∈ natToChars n, isDig c = true := by
  induction n using Nat.strong_induction_on with
  | _ n ih =>
    rw [natToChars_eq]
    by_cases h : n < 10
    · rw [if_pos h]
      intro c hc
      rw [List.mem_singleton] at hc
      subst hc
      exact digCh_isDig n
    · rw [if_neg h]
      intro c hc
      rcases List.mem_append.mp hc with hc | hc
      · exact ih (n / 10) (Nat.div_lt_self (by omega) (by omega)) c hc
      · rw [List.mem_singleton] at hc
        subst hc
        exact digCh_isDig (n % 10)

theorem natToChars_head (n : Nat) :
    ∃ c cs, natToChars n = c :: cs ∧ isDig c = true ∧ (1 ≤ n → c ≠ '0') := by
  induction n using Nat.strong_induction_on with
  | _ n ih =>
    rw [natToChars_eq]
    by_cases h : n < 10
    · rw [if_pos h]
      exact ⟨digCh n, [], rfl, digCh_isDig n, fun h1 => digCh_ne_zero n h1⟩
    · rw [if_neg h]
      obtain ⟨c, cs, hcons, hdig, hz⟩ := ih (n / 10) (Nat.div_lt_self (by omega) (by omega))
      refine ⟨c, cs ++ [digCh (n % 10)], ?_, hdig, fun _ => hz (by omega)⟩
      rw [hcons]
      rfl

theorem foldl_natToChars (n : Nat) : ∀ acc : Nat,
    (natToChars n).foldl (fun a c => 10 * a + dval c) acc =
      acc * 10 ^ (natToChars n).length + n := by
  induction n using Nat.strong_induction_on with
  | _ n ih =>
    intro acc
    rw [natToChars_eq]
    by_cases h : n < 10
    · rw [if_pos h]
      simp only [List.foldl_cons, List.foldl_nil, List.length_singleton, pow_one]
      rw [dval_digCh n h]
      omega
    · rw [if_neg h]
      rw [List.foldl_append, ih (n / 10) (Nat.div_lt_self (by omega) (by omega)) acc]
      simp only [List.foldl_cons, List.foldl_nil, List.length_append, List.length_singleton]
      rw [dval_digCh (n % 10) (Nat.mod_lt n (by omega))]
      rw [pow_succ]
      have hdm : 10 * (n / 10) + n % 10 = n := Nat.div_add_mod n 10
      ring_nf
      omega

theorem parseDigits_spec (ds : List Char) : ∀ (rest : List Char) (acc : Nat),
    (∀ c ∈ ds, isDig c = true) → headNotDig rest = true →
    parseDigits (ds ++ rest) acc = (ds.foldl (fun a c => 10 * a + dval c) acc, rest) := by
  induction ds with
  | nil =>
    intro rest acc _ hr
    cases rest with
    | nil => rfl
    | cons c r =>
      simp only [headNotDig, Bool.not_eq_true'] at hr
      simp [parseDigits, hr]
  | cons d ds ih =>
    intro rest acc hds hr
    have hd : isDig d = true := hds d (List.mem_cons_self d ds)
    simp only [List.cons_append, parseDigits, hd, if_true, List.foldl_cons]
    exact ih rest (10 * acc + dval d) (fun c hc => hds c (List.mem_cons_of_mem d hc)) hr

theorem parse_nat_print (n : Nat) (h : 1 ≤ n) (rest : List Char)
    (hr : headNotDig rest = true) :
    ∃ c cs, natToChars n = c :: cs ∧ isDig c = true ∧ c ≠ '0' ∧
      parseDigits (cs ++ rest) (dval c) = (n, rest) := by
  obtain ⟨c, cs, hcons, hdig, hz⟩ := natToChars_head n
  have hall := natToChars_all_digits n
  rw [hcons] at hall
  refine ⟨c, cs, hcons, hdig, hz h, ?_⟩
  rw [parseDigits_spec cs rest (dval c)
    (fun c' hc' => hall c' (List.mem_cons_of_mem _ hc')) hr]
  have h2 := foldl_natToChars n 0
  rw [hcons, List.foldl_cons] at h2
  simp only [Nat.mul_zero, Nat.zero_add, Nat.zero_mul] at h2
  rw [h2]

/-! ## String escaping round trip -/

theorem hexVal_digCh (k : Nat) (h : k < 10) : hexVal (digCh k) = some k := by
  unfold digCh
  split_ifs with h0 h1 h2 h3 h4 h5 h6 h7 h8
  · subst h0; decide
  · subst h1; decide
  · subst h2; decide
  · subst h3; decide
  · subst h4; decide
  · subst h5; decide
  · subst h6; decide
  · subst h7; decide
  · subst h8; decide
  · have h9 : k = 9 := by omega
    subst h9; decide

theorem hexVal_hexCh (k : Nat) (h : k < 16) : hexVal (hexCh k) = some k := by
  unfold hexCh
  split_ifs with h10 h11 h12 h13 h14 h15
  · subst h10; decide
  · subst h11; decide
  · subst h12; decide
  · subst h13; decide
  · subst h14; decide
  · subst h15; decide
  · exact hexVal_digCh k (by omega)

theorem escape_cons (c : Char) (s : JStr) : escape (c :: s) = escChar c ++ escape s := by
  simp [escape]

theorem parseStr_print (s : JStr) : ∀ rest : List Char,
    parseStr (escape s ++ '"' :: rest) = some (s, rest) := by
  induction s with
  | nil =>
    intro rest
    rw [show escape [] = [] from rfl, List.nil_append, parseStr.eq_def]
    simp
  | cons c s ih =>
    intro rest
    rw [escape_cons, List.append_assoc]
    unfold escChar
    split_ifs with h1 h2 h3 h4 h5 h6 h7 h8
    · subst h1
      rw [parseStr.eq_def]
      simp [unescMap, ih rest]
    · subst h2
      rw [parseStr.eq_def]
      simp [unescMap, ih rest]
    · subst h3
      rw [parseStr.eq_def]
      simp [unescMap, ih rest]
    · subst h4
      rw [parseStr.eq_def]
      simp [unescMap, ih rest]
    · subst h5
      rw [parseStr.eq_def]
      simp [unescMap, ih rest]
    · subst h6
      rw [parseStr.eq_def]
      simp [unescMap, ih rest]
    · subst h7
      rw [parseStr.eq_def]
      simp [unescMap, ih rest]
    · -- control character, escaped as a unicode escape
      rw [parseStr.eq_def]
      have e1 : hexVal '0' = some 0 := rfl
      have e2 := hexVal_hexCh (c.toNat / 16) (by omega)
      have e3 := hexVal_hexCh (c.toNat % 16) (by omega)
      have hv : 16 * (c.toNat / 16) + c.toNat % 16 = c.toNat := Nat.div_add_mod c.toNat 16
      simp [e1, e2, e3, ih rest, hv, Char.ofNat_toNat]
    · -- plain character
      rw [parseStr.eq_def]
      simp [h1, h2, h8, ih rest]

/-! ## Whitespace and head-character lemmas -/

theorem skipWs_cons_not (c : Char) (cs : List Char) (h : isJsonWs c = false) :
    skipWs (c :: cs) = c :: cs := by
  simp [skipWs, List.dropWhile_cons, h]

theorem skipWs_sp (n : Nat) (cs : List Char) :
    skipWs (List.replicate n ' ' ++ cs) = skipWs cs := by
  induction n with
  | zero => simp
  | succ m ih =>
    rw [List.replicate_succ, List.cons_append]
    simp only [skipWs, List.dropWhile_cons]
    rw [show isJsonWs ' ' = true from by decide]
    exact ih

theorem skipWs_indent (d : Nat) (cs : List Char) :
    skipWs (indentSp d ++ cs) = skipWs cs :=
  skipWs_sp (2 * d) cs

theorem skipWs_nl (cs : List Char) : skipWs ('\n' :: cs) = skipWs cs := by
  simp only [skipWs, List.dropWhile_cons]
  rw [show isJsonWs '\n' = true from by decide]
  rfl

theorem skipWs_space (cs : List Char) : skipWs (' ' :: cs) = skipWs cs := by
  simp only [skipWs, List.dropWhile_cons]
  rw [show isJsonWs ' ' = true from by decide]
  rfl

theorem strJ_num (d : Nat) (n : Int) : strJ d (.num n) = intToChars n := by
  simp [strJ]

theorem strJ_str (d : Nat) (s : JStr) : strJ d (.str s) = quoteStr s := by
  simp [strJ]

theorem strJ_head (d : Nat) (v : Json) :
    ∃ c cs, strJ d v = c :: cs ∧ isJsonWs c = false ∧ c ≠ ']' ∧ c ≠ '}' := by
  cases v with
  | null =>
    exact ⟨'n', ['u', 'l', 'l'], by simp [strJ], by decide, by decide, by decide⟩
  | bool b =>
    cases b with
    | true =>
      exact ⟨'t', ['r', 'u', 'e'], by simp [strJ], by decide, by decide, by decide⟩
    | false =>
      exact ⟨'f', ['a', 'l', 's', 'e'], by simp [strJ], by decide, by decide, by decide⟩
  | num n =>
    rw [strJ_num]
    unfold intToChars
    by_cases hn : n < 0
    · rw [if_pos hn]
      exact ⟨'-', natToChars n.natAbs, rfl, by decide, by decide, by decide⟩
    · rw [if_neg hn]
      obtain ⟨c, cs, hcons, hdig, _⟩ := natToChars_head n.toNat
      obtain ⟨_, _, _, _, _, _, _, h1, h2, _⟩ := isDig_ne_special c hdig
      exact ⟨c, cs, hcons, isDig_not_ws c hdig, h1, h2⟩
  | str s =>
    exact ⟨'"', escape s ++ ['"'], by rw [strJ_str, quoteStr]; rfl,
      by decide, by decide, by decide⟩
  | arr xs =>
    cases xs with
    | nil =>
      exact ⟨'[', [']'], by simp [strJ], by decide, by decide, by decide⟩
    | cons x xs =>
      exact ⟨'[', '\n' :: (indentSp (d + 1) ++ strJ (d + 1) x ++ strItems (d + 1) xs
        ++ '\n' :: (indentSp d ++ [']'])), by simp [strJ], by decide, by decide, by decide⟩
  | obj es =>
    cases es with
    | nil =>
      exact ⟨'{', ['}'], by simp [strJ], by decide, by decide, by decide⟩
    | cons kv es =>
      obtain ⟨k, v⟩ := kv
      exact ⟨'{', '\n' :: (indentSp (d + 1) ++ quoteStr k ++ ':' :: ' ' :: strJ (d + 1) v
        ++ strEntries (d + 1) es ++ '\n' :: (indentSp d ++ ['}'])),
        by simp [strJ], by decide, by decide, by decide⟩

theorem skipWs_strJ_append (d : Nat) (v : Json) (rest : List Char) :
    skipWs (strJ d v ++ rest) = strJ d v ++ rest := by
  obtain ⟨c, cs, hc, hws, _, _⟩ := strJ_head d v
  rw [hc, List.cons_append, skipWs_cons_not _ _ hws]

/-! ## Whitespace invariance of the parsing functions -/

theorem parseValue_ws_pre (fuel : Nat) (pre cs : List Char)
    (hpre : skipWs (pre ++ cs) = skipWs cs) :
    parseValue fuel (pre ++ cs) = parseValue fuel cs := by
  cases fuel with
  | zero => rfl
  | succ f =>
    rw [parseValue.eq_def, parseValue.eq_def]
    simp only []
    rw [hpre]

theorem parseElems_ws_pre (fuel : Nat) (pre cs : List Char)
    (hpre : skipWs (pre ++ cs) = skipWs cs) :
    parseElems fuel (pre ++ cs) = parseElems fuel cs := by
  cases fuel with
  | zero => rfl
  | succ f =>
    rw [parseElems.eq_def, parseElems.eq_def]
    simp only []
    rw [parseValue_ws_pre f pre cs hpre]

theorem parseMembers_ws_pre (fuel : Nat) (pre cs : List Char)
    (hpre : skipWs (pre ++ cs) = skipWs cs) :
    parseMembers fuel (pre ++ cs) = parseMembers fuel cs := by
  cases fuel with
  | zero => rfl
  | succ f =>
    rw [parseMembers.eq_def, parseMembers.eq_def]
    simp only []
    rw [hpre]

/-! ## Well-formed objects come back unchanged from property assignment -/

theorem keysUnique_iff (l : List JStr) : keysUnique l = true ↔ l.Nodup := by
  induction l with
  | nil => simp [keysUnique]
  | cons k ks ih =>
    simp [keysUnique, ih, List.nodup_cons]

theorem foldl_recordSet (es : List (JStr × Json)) : ∀ acc : List (JStr × Json),
    ((acc ++ es).map Prod.fst).Nodup →
    es.foldl (fun a kv => recordSet a kv.1 kv.2) acc = acc ++ es := by
  induction es with
  | nil => intro acc _; simp
  | cons kv es ih =>
    intro acc h
    have hdisj : kv.1 ∉ acc.map Prod.fst := by
      intro hmem
      rw [List.map_append] at h
      rcases (List.nodup_append.mp h) with ⟨_, _, hd⟩
      exact hd hmem (by simp)
    have hset : recordSet acc kv.1 kv.2 = acc ++ [kv] := by
      rw [recordSet_of_not_mem acc kv.1 kv.2 ((recordGet_eq_none_iff acc kv.1).mpr hdisj)]
    simp only [List.foldl_cons, hset]
    rw [ih (acc ++ [kv]) (by simpa using h)]
    simp

theorem objFromList_self (es : List (JStr × Json))
    (h : keysUnique (es.map Prod.fst) = true) : objFromList es = es := by
  unfold objFromList
  rw [foldl_recordSet es [] (by simpa using (keysUnique_iff _).mp h)]
  simp

theorem jwf_arr (xs : List Json) : jwf (.arr xs) = jwfList xs := by
  simp [jwf]

theorem jwf_obj (es : List (JStr × Json)) :
    jwf (.obj es) = (keysUnique (es.map Prod.fst) && jwfMembers es) := by
  simp [jwf]

theorem jwfList_cons (x : Json) (xs : List Json) :
    jwfList (x :: xs) = (jwf x && jwfList xs) := by
  simp [jwfList]

theorem jwfMembers_cons (kv : JStr × Json) (es : List (JStr × Json)) :
    jwfMembers (kv :: es) = (jwf kv.2 && jwfMembers es) := by
  obtain ⟨k, v⟩ := kv
  simp [jwfMembers]

/-! ## The printer output parses back: main induction on parser fuel -/

theorem pv_null (fuel : Nat) (d : Nat) (rest : List Char) :
    parseValue (fuel + 1) (strJ d Json.null ++ rest) = some (Json.null, rest) := by
  rw [show strJ d Json.null = ['n', 'u', 'l', 'l'] from by simp [strJ]]
  rw [parseValue.eq_def]
  simp only [List.cons_append, List.nil_append]
  rw [show skipWs ('n' :: 'u' :: 'l' :: 'l' :: rest) = 'n' :: 'u' :: 'l' :: 'l' :: rest from
    skipWs_cons_not 'n' _ (by decide)]
  simp

theorem pv_bool (fuel : Nat) (d : Nat) (b : Bool) (rest : List Char) :
    parseValue (fuel + 1) (strJ d (Json.bool b) ++ rest) = some (Json.bool b, rest) := by
  cases b with
  | true =>
    rw [show strJ d (Json.bool true) = ['t', 'r', 'u', 'e'] from by simp [strJ]]
    rw [parseValue.eq_def]
    simp only [List.cons_append, List.nil_append]
    rw [show skipWs ('t' :: 'r' :: 'u' :: 'e' :: rest) = 't' :: 'r' :: 'u' :: 'e' :: rest from
      skipWs_cons_not 't' _ (by decide)]
    simp
  | false =>
    rw [show strJ d (Json.bool false) = ['f', 'a', 'l', 's', 'e'] from by simp [strJ]]
    rw [parseValue.eq_def]
    simp only [List.cons_append, List.nil_append]
    rw [show skipWs ('f' :: 'a' :: 'l' :: 's' :: 'e' :: rest)
        = 'f' :: 'a' :: 'l' :: 's' :: 'e' :: rest from skipWs_cons_not 'f' _ (by decide)]
    simp

theorem pv_str (fuel : Nat) (d : Nat) (s : JStr) (rest : List Char) :
    parseValue (fuel + 1) (strJ d (Json.str s) ++ rest) = some (Json.str s, rest) := by
  rw [strJ_str, quoteStr]
  rw [parseValue.eq_def]
  simp only [List.cons_append, List.append_assoc, List.singleton_append, List.nil_append]
  rw [show skipWs ('"' :: (escape s ++ '"' :: rest)) = '"' :: (escape s ++ '"' :: rest) from
    skipWs_cons_not '"' _ (by decide)]
  simp [parseStr_print s rest]

theorem pv_num (fuel : Nat) (d : Nat) (n : Int) (rest : List Char)
    (hrest : headNotDig rest = true) :
    parseValue (fuel + 1) (strJ d (Json.num n) ++ rest) = some (Json.num n, rest) := by
  rw [strJ_num]
  unfold intToChars
  rcases n with m | m
  · rw [Int.ofNat_eq_coe, if_neg (by omega : ¬ ((m : Int) < 0)),
      show ((m : Int)).toNat = m from rfl]
    by_cases hm : m = 0
    · subst hm
      rw [show natToChars 0 = ['0'] from by
        rw [natToChars_eq, if_pos (by omega), show digCh 0 = '0' from by decide]]
      rw [parseValue.eq_def]
      simp only [List.cons_append, List.nil_append]
      rw [show skipWs ('0' :: rest) = '0' :: rest from skipWs_cons_not '0' _ (by decide)]
      simp
    · obtain ⟨c, cs, hcons, hdig, hz, hpd⟩ := parse_nat_print m (by omega) rest hrest
      obtain ⟨hcn, hct, hcf, hcq, hcm, _, _, _, _, _⟩ := isDig_ne_special c hdig
      rw [hcons, List.cons_append]
      rw [parseValue.eq_def]
      simp only []
      rw [show skipWs (c :: (cs ++ rest)) = c :: (cs ++ rest) from
        skipWs_cons_not c _ (isDig_not_ws c hdig)]
      simp only []
      rw [if_neg hcn, if_neg hct, if_neg hcf, if_neg hcq, if_neg hcm, if_neg hz, if_pos hdig,
        hpd]
  · rw [if_pos (Int.negSucc_lt_zero m), show (Int.negSucc m).natAbs = m + 1 from rfl]
    obtain ⟨c, cs, hcons, hdig, hz, hpd⟩ := parse_nat_print (m + 1) (by omega) rest hrest
    rw [hcons, List.cons_append, List.cons_append]
    rw [parseValue.eq_def]
    simp only []
    rw [show skipWs ('-' :: (c :: (cs ++ rest))) = '-' :: (c :: (cs ++ rest)) from
      skipWs_cons_not '-' _ (by decide)]
    simp [hz, hdig, hpd, Int.negSucc_eq]

theorem pv_arr_nil (fuel : Nat) (d : Nat) (rest : List Char) :
    parseValue (fuel + 1) (strJ d (Json.arr []) ++ rest) = some (Json.arr [], rest) := by
  rw [show strJ d (Json.arr []) = ['[', ']'] from by simp [strJ]]
  rw [parseValue.eq_def]
  simp only [List.cons_append, List.nil_append]
  rw [show skipWs ('[' :: ']' :: rest) = '[' :: ']' :: rest from
    skipWs_cons_not '[' _ (by decide)]
  simp [skipWs, isJsonWs, isDig]

theorem pv_obj_nil (fuel : Nat) (d : Nat) (rest : List Char) :
    parseValue (fuel + 1) (strJ d (Json.obj []) ++ rest) = some (Json.obj [], rest) := by
  rw [show strJ d (Json.obj []) = ['{', '}'] from by simp [strJ]]
  rw [parseValue.eq_def]
  simp only [List.cons_append, List.nil_append]
  rw [show skipWs ('{' :: '}' :: rest) = '{' :: '}' :: rest from
    skipWs_cons_not '{' _ (by decide)]
  simp [skipWs, isJsonWs, isDig, objFromList]

theorem pv_arr_cons (fuel : Nat) (hQ : ElemsOK fuel) (d : Nat) (x : Json) (xs : List Json)
    (rest : List Char) (hwf : jwfList (x :: xs) = true)
    (hlen : (strJ d (Json.arr (x :: xs)) ++ rest).length ≤ fuel + 1) :
    parseValue (fuel + 1) (strJ d (Json.arr (x :: xs)) ++ rest)
      = some (Json.arr (x :: xs), rest) := by
  have hstr : strJ d (Json.arr (x :: xs)) = '[' :: '\n' :: (indentSp (d + 1)
      ++ strJ (d + 1) x ++ strItems (d + 1) xs ++ '\n' :: (indentSp d ++ [']'])) := by
    simp [strJ]
  rw [hstr] at hlen ⊢
  have harg : ('[' :: '\n' :: (indentSp (d + 1) ++ strJ (d + 1) x ++ strItems (d + 1) xs
      ++ '\n' :: (indentSp d ++ [']']))) ++ rest
      = '[' :: '\n' :: (indentSp (d + 1) ++ ElemsArg (d + 1) d x xs rest) := by
    simp [ElemsArg, List.append_assoc]
  rw [harg]
  have hlt : (ElemsArg (d + 1) d x xs rest).length < fuel := by
    simp only [List.length_append, List.length_cons, indentSp, List.length_replicate,
      List.length_singleton, ElemsArg] at hlen ⊢
    omega
  have hQfact := hQ x xs (d + 1) d rest hwf hlt
  obtain ⟨c1, cs1, hc1, hc1w, hc1r, _⟩ := strJ_head (d + 1) x
  have hexp : ElemsArg (d + 1) d x xs rest
      = c1 :: (cs1 ++ (strItems (d + 1) xs ++ '\n' :: (indentSp d ++ ']' :: rest))) := by
    simp only [ElemsArg, hc1, List.cons_append]
  rw [hexp] at hQfact ⊢
  have hskip : skipWs ('\n' :: (indentSp (d + 1)
      ++ (c1 :: (cs1 ++ (strItems (d + 1) xs ++ '\n' :: (indentSp d ++ ']' :: rest))))))
      = c1 :: (cs1 ++ (strItems (d + 1) xs ++ '\n' :: (indentSp d ++ ']' :: rest))) := by
    rw [skipWs_nl, skipWs_indent]
    exact skipWs_cons_not c1 _ hc1w
  rw [parseValue.eq_def]
  simp only []
  rw [show skipWs ('[' :: '\n' :: (indentSp (d + 1)
      ++ (c1 :: (cs1 ++ (strItems (d + 1) xs ++ '\n' :: (indentSp d ++ ']' :: rest))))))
      = '[' :: '\n' :: (indentSp (d + 1)
      ++ (c1 :: (cs1 ++ (strItems (d + 1) xs ++ '\n' :: (indentSp d ++ ']' :: rest))))) from
    skipWs_cons_not '[' _ (by decide)]
  simp [hskip, hc1r, hQfact, isDig]

theorem pv_obj_cons (fuel : Nat) (hR : MembersOK fuel) (d : Nat) (k : JStr) (v : Json)
    (es : List (JStr × Json)) (rest : List Char)
    (hwf : jwf (Json.obj ((k, v) :: es)) = true)
    (hlen : (strJ d (Json.obj ((k, v) :: es)) ++ rest).length ≤ fuel + 1) :
    parseValue (fuel + 1) (strJ d (Json.obj ((k, v) :: es)) ++ rest)
      = some (Json.obj ((k, v) :: es), rest) := by
  rw [jwf_obj, Bool.and_eq_true] at hwf
  obtain ⟨hkeys, hmem⟩ := hwf
  have hstr : strJ d (Json.obj ((k, v) :: es)) = '{' :: '\n' :: (indentSp (d + 1)
      ++ quoteStr k ++ ':' :: ' ' :: strJ (d + 1) v ++ strEntries (d + 1) es
      ++ '\n' :: (indentSp d ++ ['}'])) := by
    simp [strJ]
  rw [hstr] at hlen ⊢
  have harg : ('{' :: '\n' :: (indentSp (d + 1) ++ quoteStr k ++ ':' :: ' ' :: strJ (d + 1) v
      ++ strEntries (d + 1) es ++ '\n' :: (indentSp d ++ ['}']))) ++ rest
      = '{' :: '\n' :: (indentSp (d + 1) ++ MembersArg (d + 1) d k v es rest) := by
    simp [MembersArg, List.append_assoc]
  rw [harg]
  have hlt : (MembersArg (d + 1) d k v es rest).length < fuel := by
    simp only [List.length_append, List.length_cons, indentSp, List.length_replicate,
      List.length_singleton, MembersArg, quoteStr] at hlen ⊢
    omega
  have hRfact := hR k v es (d + 1) d rest hmem hlt
  have hexp : MembersArg (d + 1) d k v es rest
      = '"' :: (escape k ++ '"' :: (':' :: ' ' :: (strJ (d + 1) v
          ++ (strEntries (d + 1) es ++ '\n' :: (indentSp d ++ '}' :: rest))))) := by
    simp only [MembersArg, quoteStr, List.cons_append, List.append_assoc,
      List.singleton_append, List.nil_append]
  rw [hexp] at hRfact ⊢
  have hskip : skipWs ('\n' :: (indentSp (d + 1)
      ++ ('"' :: (escape k ++ '"' :: (':' :: ' ' :: (strJ (d + 1) v
          ++ (strEntries (d + 1) es ++ '\n' :: (indentSp d ++ '}' :: rest))))))))
      = '"' :: (escape k ++ '"' :: (':' :: ' ' :: (strJ (d + 1) v
          ++ (strEntries (d + 1) es ++ '\n' :: (indentSp d ++ '}' :: rest))))) := by
    rw [skipWs_nl, skipWs_indent]
    exact skipWs_cons_not '"' _ (by decide)
  rw [parseValue.eq_def]
  simp only []
  rw [show skipWs ('{' :: '\n' :: (indentSp (d + 1)
      ++ ('"' :: (escape k ++ '"' :: (':' :: ' ' :: (strJ (d + 1) v
          ++ (strEntries (d + 1) es ++ '\n' :: (indentSp d ++ '}' :: rest))))))))
      = '{' :: '\n' :: (indentSp (d + 1)
      ++ ('"' :: (escape k ++ '"' :: (':' :: ' ' :: (strJ (d + 1) v
          ++ (strEntries (d + 1) es ++ '\n' :: (indentSp d ++ '}' :: rest))))))) from
    skipWs_cons_not '{' _ (by decide)]
  simp [hskip, hRfact, objFromList_self _ hkeys, isDig]

theorem parseValue_succ (fuel : Nat) (hQ : ElemsOK fuel) (hR : MembersOK fuel) :
    PvalOK (fuel + 1) := by
  intro v d rest hwf hrest hlen
  cases v with
  | null => exact pv_null fuel d rest
  | bool b => exact pv_bool fuel d b rest
  | num n => exact pv_num fuel d n rest hrest
  | str s => exact pv_str fuel d s rest
  | arr xs =>
    cases xs with
    | nil => exact pv_arr_nil fuel d rest
    | cons x xs =>
      rw [jwf_arr] at hwf
      exact pv_arr_cons fuel hQ d x xs rest hwf hlen
  | obj es =>
    cases es with
    | nil => exact pv_obj_nil fuel d rest
    | cons kv es =>
      obtain ⟨k, v⟩ := kv
      exact pv_obj_cons fuel hR d k v es rest hwf hlen

theorem parseElems_succ (fuel : Nat) (hP : PvalOK fuel) (hQ : ElemsOK fuel) :
    ElemsOK (fuel + 1) := by
  intro x xs d e rest hwf hlen
  rw [jwfList_cons, Bool.and_eq_true] at hwf
  obtain ⟨hwx, hwxs⟩ := hwf
  simp only [ElemsArg] at hlen ⊢
  have hnd : headNotDig (strItems d xs ++ '\n' :: (indentSp e ++ ']' :: rest)) = true := by
    cases xs with
    | nil =>
      rw [show strItems d [] = [] from by simp [strItems], List.nil_append]
      simp [headNotDig, isDig]
    | cons y ys =>
      rw [show strItems d (y :: ys)
          = ',' :: '\n' :: (indentSp d ++ strJ d y ++ strItems d ys) from by simp [strItems],
        List.cons_append]
      simp [headNotDig, isDig]
  have h1 := hP x d (strItems d xs ++ '\n' :: (indentSp e ++ ']' :: rest)) hwx hnd
    (by omega)
  rw [parseElems.eq_def]
  simp only []
  rw [h1]
  simp only []
  cases xs with
  | nil =>
    rw [show strItems d [] = [] from by simp [strItems], List.nil_append,
      skipWs_nl, skipWs_indent,
      show skipWs (']' :: rest) = ']' :: rest from skipWs_cons_not ']' _ (by decide)]
    simp
  | cons y ys =>
    have hitems : strItems d (y :: ys)
        = ',' :: '\n' :: (indentSp d ++ strJ d y ++ strItems d ys) := by
      simp [strItems]
    rw [hitems] at hlen
    rw [hitems, List.cons_append,
      show skipWs (',' :: ('\n' :: (indentSp d ++ strJ d y ++ strItems d ys)
          ++ '\n' :: (indentSp e ++ ']' :: rest)))
        = ',' :: ('\n' :: (indentSp d ++ strJ d y ++ strItems d ys)
          ++ '\n' :: (indentSp e ++ ']' :: rest)) from skipWs_cons_not ',' _ (by decide)]
    simp only []
    have hsh : ('\n' :: (indentSp d ++ strJ d y ++ strItems d ys)
          ++ '\n' :: (indentSp e ++ ']' :: rest))
        = ('\n' :: indentSp d)
          ++ (strJ d y ++ (strItems d ys ++ '\n' :: (indentSp e ++ ']' :: rest))) := by
      simp [List.append_assoc]
    rw [hsh]
    have hws : skipWs (('\n' :: indentSp d)
          ++ (strJ d y ++ (strItems d ys ++ '\n' :: (indentSp e ++ ']' :: rest))))
        = skipWs (strJ d y ++ (strItems d ys ++ '\n' :: (indentSp e ++ ']' :: rest))) := by
      rw [List.cons_append, skipWs_nl, skipWs_indent]
    rw [parseElems_ws_pre fuel ('\n' :: indentSp d) _ hws]
    have h3 := hQ y ys d e rest hwxs (by
      simp only [List.length_append, List.length_cons, indentSp, List.length_replicate,
        ElemsArg] at hlen ⊢
      omega)
    simp only [ElemsArg] at h3
    rw [h3]
    simp

theorem parseMembers_succ (fuel : Nat) (hP : PvalOK fuel) (hR : MembersOK fuel) :
    MembersOK (fuel + 1) := by
  intro k v es d e rest hwf hlen
  rw [jwfMembers_cons, Bool.and_eq_true] at hwf
  obtain ⟨hwv, hwes⟩ := hwf
  have hQexp : MembersArg d e k v es rest
      = '"' :: (escape k ++ '"' :: (':' :: ' ' :: (strJ d v
          ++ (strEntries d es ++ '\n' :: (indentSp e ++ '}' :: rest))))) := by
    simp only [MembersArg, quoteStr, List.cons_append, List.append_assoc,
      List.singleton_append, List.nil_append]
  rw [hQexp] at hlen ⊢
  rw [parseMembers.eq_def]
  simp only []
  rw [show skipWs ('"' :: (escape k ++ '"' :: (':' :: ' ' :: (strJ d v
          ++ (strEntries d es ++ '\n' :: (indentSp e ++ '}' :: rest))))))
      = '"' :: (escape k ++ '"' :: (':' :: ' ' :: (strJ d v
          ++ (strEntries d es ++ '\n' :: (indentSp e ++ '}' :: rest))))) from
    skipWs_cons_not '"' _ (by decide)]
  simp only []
  rw [if_pos trivial]
  rw [parseStr_print k (':' :: ' ' :: (strJ d v
      ++ (strEntries d es ++ '\n' :: (indentSp e ++ '}' :: rest))))]
  simp only []
  rw [show skipWs (':' :: ' ' :: (strJ d v
      ++ (strEntries d es ++ '\n' :: (indentSp e ++ '}' :: rest))))
      = ':' :: ' ' :: (strJ d v ++ (strEntries d es ++ '\n' :: (indentSp e ++ '}' :: rest))) from
    skipWs_cons_not ':' _ (by decide)]
  simp only []
  rw [if_pos trivial]
  have hsw : skipWs (([' ']) ++ (strJ d v
      ++ (strEntries d es ++ '\n' :: (indentSp e ++ '}' :: rest))))
      = skipWs (strJ d v ++ (strEntries d es ++ '\n' :: (indentSp e ++ '}' :: rest))) := by
    rw [List.singleton_append, skipWs_space]
  have hpre := parseValue_ws_pre fuel [' '] _ hsw
  rw [show (' ' :: (strJ d v ++ (strEntries d es ++ '\n' :: (indentSp e ++ '}' :: rest))))
      = ([' ']) ++ (strJ d v ++ (strEntries d es ++ '\n' :: (indentSp e ++ '}' :: rest))) from
    by simp]
  rw [hpre]
  have hnd : headNotDig (strEntries d es ++ '\n' :: (indentSp e ++ '}' :: rest)) = true := by
    cases es with
    | nil =>
      rw [show strEntries d [] = [] from by simp [strEntries], List.nil_append]
      simp [headNotDig, isDig]
    | cons kv2 es2 =>
      obtain ⟨k2, v2⟩ := kv2
      rw [show strEntries d ((k2, v2) :: es2) = ',' :: '\n' :: (indentSp d ++ quoteStr k2
          ++ ':' :: ' ' :: strJ d v2 ++ strEntries d es2) from by simp [strEntries],
        List.cons_append]
      simp [headNotDig, isDig]
  have h1 := hP v d (strEntries d es ++ '\n' :: (indentSp e ++ '}' :: rest)) hwv hnd (by
    simp only [List.length_append, List.length_cons] at hlen ⊢
    omega)
  rw [h1]
  simp only []
  cases es with
  | nil =>
    rw [show strEntries d [] = [] from by simp [strEntries], List.nil_append,
      skipWs_nl, skipWs_indent,
      show skipWs ('}' :: rest) = '}' :: rest from skipWs_cons_not '}' _ (by decide)]
    simp
  | cons kv2 es2 =>
    obtain ⟨k2, v2⟩ := kv2
    have hitems : strEntries d ((k2, v2) :: es2) = ',' :: '\n' :: (indentSp d ++ quoteStr k2
        ++ ':' :: ' ' :: strJ d v2 ++ strEntries d es2) := by
      simp [strEntries]
    rw [hitems] at hlen
    rw [hitems, List.cons_append,
      show skipWs (',' :: ('\n' :: (indentSp d ++ quoteStr k2
          ++ ':' :: ' ' :: strJ d v2 ++ strEntries d es2)
          ++ '\n' :: (indentSp e ++ '}' :: rest)))
        = ',' :: ('\n' :: (indentSp d ++ quoteStr k2 ++ ':' :: ' ' :: strJ d v2
          ++ strEntries d es2) ++ '\n' :: (indentSp e ++ '}' :: rest)) from
      skipWs_cons_not ',' _ (by decide)]
    simp only []
    have hsh : ('\n' :: (indentSp d ++ quoteStr k2 ++ ':' :: ' ' :: strJ d v2
          ++ strEntries d es2) ++ '\n' :: (indentSp e ++ '}' :: rest))
        = ('\n' :: indentSp d) ++ MembersArg d e k2 v2 es2 rest := by
      simp [MembersArg, List.append_assoc]
    rw [hsh]
    have hws : skipWs (('\n' :: indentSp d) ++ MembersArg d e k2 v2 es2 rest)
        = skipWs (MembersArg d e k2 v2 es2 rest) := by
      rw [List.cons_append, skipWs_nl, skipWs_indent]
    rw [parseMembers_ws_pre fuel ('\n' :: indentSp d) _ hws]
    have h3 := hR k2 v2 es2 d e rest hwes (by
      have hq2 : MembersArg d e k2 v2 es2 rest
          = '"' :: (escape k2 ++ '"' :: (':' :: ' ' :: (strJ d v2
              ++ (strEntries d es2 ++ '\n' :: (indentSp e ++ '}' :: rest))))) := by
        simp only [MembersArg, quoteStr, List.cons_append, List.append_assoc,
          List.singleton_append, List.nil_append]
      rw [hq2]
      simp only [List.length_append, List.length_cons, indentSp, List.length_replicate,
        quoteStr] at hlen ⊢
      omega)
    rw [h3]
    simp

theorem parser_print (fuel : Nat) : PvalOK fuel ∧ ElemsOK fuel ∧ MembersOK fuel := by
  induction fuel with
  | zero =>
    refine ⟨?_, ?_, ?_⟩
    · intro v d rest _ _ hlen
      obtain ⟨c, cs, hc, _, _, _⟩ := strJ_head d v
      rw [hc, List.cons_append] at hlen
      simp at hlen
    · intro x xs d e rest _ hlen
      omega
    · intro k v es d e rest _ hlen
      omega
  | succ fuel ih =>
    obtain ⟨hP, hQ, hR⟩ := ih
    exact ⟨parseValue_succ fuel hQ hR, parseElems_succ fuel hP hQ,
      parseMembers_succ fuel hP hR⟩

/-- The printed form of every well-formed value parses back to that value. -/
theorem stringify_parse (v : Json) (h : jwf v = true) :
    jsonParse (jstringify v) = some v := by
  unfold jsonParse jstringify
  have hp := (parser_print ((strJ 0 v).length + 1)).1 v 0 [] h rfl
    (by rw [List.append_nil]; omega)
  rw [List.append_nil] at hp
  rw [hp]
  simp [skipWs]

/-! ## Values delivered by the parser are well formed -/

theorem recordSet_jwfMembers (m : List (JStr × Json)) (k : JStr) (v : Json)
    (hm : jwfMembers m = true) (hv : jwf v = true) : jwfMembers (recordSet m k v) = true := by
  induction m with
  | nil => simp [recordSet, jwfMembers, jwf_arr, hv]
  | cons kv rest ih =>
    rw [jwfMembers_cons, Bool.and_eq_true] at hm
    obtain ⟨h1, h2⟩ := hm
    by_cases hk : kv.1 = k
    · simp only [recordSet, if_pos hk]
      rw [show jwfMembers ((kv.1, v) :: rest) = (jwf v && jwfMembers rest) from
        jwfMembers_cons (kv.1, v) rest]
      simp [hv, h2]
    · simp only [recordSet, if_neg hk]
      rw [jwfMembers_cons, Bool.and_eq_true]
      exact ⟨h1, ih h2⟩

theorem objFromList_invariant (es : List (JStr × Json)) : ∀ acc : List (JStr × Json),
    (acc.map Prod.fst).Nodup → jwfMembers acc = true → jwfMembers es = true →
    ((es.foldl (fun a kv => recordSet a kv.1 kv.2) acc).map Prod.fst).Nodup ∧
      jwfMembers (es.foldl (fun a kv => recordSet a kv.1 kv.2) acc) = true := by
  induction es with
  | nil => intro acc h1 h2 _; exact ⟨h1, h2⟩
  | cons kv es ih =>
    intro acc h1 h2 h3
    rw [jwfMembers_cons, Bool.and_eq_true] at h3
    obtain ⟨hv, hes⟩ := h3
    simp only [List.foldl_cons]
    exact ih (recordSet acc kv.1 kv.2) (recordSet_keys_nodup acc kv.1 kv.2 h1)
      (recordSet_jwfMembers acc kv.1 kv.2 h2 hv) hes

theorem objFromList_wf (es : List (JStr × Json)) (h : jwfMembers es = true) :
    jwf (Json.obj (objFromList es)) = true := by
  have hinv := objFromList_invariant es [] (by simp) (by simp [jwfMembers]) h
  rw [jwf_obj, Bool.and_eq_true]
  exact ⟨(keysUnique_iff _).mpr hinv.1, hinv.2⟩

set_option maxHeartbeats 2000000 in
theorem parse_wf (fuel : Nat) :
    (∀ cs v r, parseValue fuel cs = some (v, r) → jwf v = true) ∧
    (∀ cs xs r, parseElems fuel cs = some (xs, r) → jwfList xs = true) ∧
    (∀ cs es r, parseMembers fuel cs = some (es, r) → jwfMembers es = true) := by
  induction fuel with
  | zero =>
    refine ⟨?_, ?_, ?_⟩
    · intro cs a r h
      rw [parseValue.eq_def] at h
      simp at h
    · intro cs a r h
      rw [parseElems.eq_def] at h
      simp at h
    · intro cs a r h
      rw [parseMembers.eq_def] at h
      simp at h
  | succ fuel ih =>
    obtain ⟨ihP, ihQ, ihR⟩ := ih
    refine ⟨?_, ?_, ?_⟩
    · intro cs v r h
      rw [parseValue.eq_def] at h
      simp only [] at h
      repeat' split at h
      all_goals try exact Option.noConfusion h
      all_goals injection h with hp
      all_goals cases hp
      all_goals try simp [jwf, jwfList, jwfMembers]
      all_goals rename_i heq
      all_goals first
        | exact ihQ _ _ _ heq
        | exact ihR _ _ _ heq
        | simp [keysUnique]
        | exact ihP _ _ _ (by assumption)
        | exact ⟨ihP _ _ _ (by assumption), ihQ _ _ _ heq⟩
        | exact ⟨ihP _ _ _ (by assumption), ihR _ _ _ heq⟩
        | (have hwm := objFromList_wf _ (ihR _ _ _ heq)
           rw [jwf_obj, Bool.and_eq_true] at hwm
           exact hwm)
    · intro cs xs r h
      rw [parseElems.eq_def] at h
      simp only [] at h
      repeat' split at h
      all_goals try exact Option.noConfusion h
      all_goals injection h with hp
      all_goals cases hp
      all_goals try simp [jwf, jwfList, jwfMembers]
      all_goals rename_i heq
      all_goals first
        | exact ihQ _ _ _ heq
        | exact ihR _ _ _ heq
        | simp [keysUnique]
        | exact ihP _ _ _ (by assumption)
        | exact ⟨ihP _ _ _ (by assumption), ihQ _ _ _ heq⟩
        | exact ⟨ihP _ _ _ (by assumption), ihR _ _ _ heq⟩
        | (have hwm := objFromList_wf _ (ihR _ _ _ heq)
           rw [jwf_obj, Bool.and_eq_true] at hwm
           exact hwm)
    · intro cs es r h
      rw [parseMembers.eq_def] at h
      simp only [] at h
      repeat' split at h
      all_goals try exact Option.noConfusion h
      all_goals injection h with hp
      all_goals cases hp
      all_goals try simp [jwf, jwfList, jwfMembers]
      all_goals rename_i heq
      all_goals first
        | exact ihQ _ _ _ heq
        | exact ihR _ _ _ heq
        | simp [keysUnique]
        | exact ihP _ _ _ (by assumption)
        | exact ⟨ihP _ _ _ (by assumption), ihQ _ _ _ heq⟩
        | exact ⟨ihP _ _ _ (by assumption), ihR _ _ _ heq⟩
        | (have hwm := objFromList_wf _ (ihR _ _ _ heq)
           rw [jwf_obj, Bool.and_eq_true] at hwm
           exact hwm)

/-! ## Corollaries about the parser and the renderer -/

theorem jsonParse_wf (cs : List Char) (v : Json) (h : jsonParse cs = some v) :
    jwf v = true := by
  unfold jsonParse at h
  cases hp : parseValue (cs.length + 1) cs with
  | none => rw [hp] at h; cases h
  | some p =>
    obtain ⟨v', r⟩ := p
    rw [hp] at h
    dsimp only at h
    by_cases hr : skipWs r = []
    · rw [if_pos hr] at h
      injection h with h1
      exact h1 ▸ (parse_wf (cs.length + 1)).1 cs v' r hp
    · rw [if_neg hr] at h; cases h

theorem scalarText_eq_jstringify (v : Json) (hs : ∀ t, v ≠ Json.str t)
    (ha : ∀ xs, v ≠ Json.arr xs) (ho : ∀ es, v ≠ Json.obj es) :
    scalarText v = jstringify v := by
  cases v with
  | str t => exact absurd rfl (hs t)
  | arr xs => exact absurd rfl (ha xs)
  | obj es => exact absurd rfl (ho es)
  | null => rfl
  | bool b => cases b <;> rfl
  | num n => rfl

theorem renderBody_not_json (ct : Option JStr) (dat : JsData)
    (h1 : isStructuredData dat = false) (h2 : isJsonHdr ct = false) :
    renderBody ct dat = asText dat := by
  cases dat with
  | raw s => simp [renderBody, h2]
  | decoded v => cases v <;> simp_all [renderBody, isStructuredData, h2]

theorem renderBody_parse_fail (ct : Option JStr) (dat : JsData)
    (h1 : isStructuredData dat = false) (h2 : jsonParse (asText dat) = none) :
    renderBody ct dat = asText dat := by
  cases dat with
  | raw s =>
    simp only [asText] at h2
    cases hct : isJsonHdr ct <;> simp [renderBody, asText, hct, h2]
  | decoded v =>
    cases v <;> simp_all [renderBody, isStructuredData, asText] <;>
      cases hct : isJsonHdr ct <;> simp [hct, h2]

/-! ## The claims -/

/-- C1: whenever the HTTP client delivers a response the process exits with
code 0 (axios resolves every received response because `validateStatus`
accepts every status code), and whenever the request fails in transport or
before dispatch, so the client call throws, the process exits with code 1. -/
theorem C1_exit_codes (o : Options) (r : AxiosResponse) (e : AxiosFailure) :
    (runAction o (axiosOutcome (WireResult.response r))).exitCode = 0 ∧
    (runAction o (axiosOutcome (WireResult.failure e))).exitCode = 1 := by
  constructor
  · simp [axiosOutcome, validateStatus, runAction]
  · by_cases h : o.silent <;> simp [axiosOutcome, runAction, h]

/-- C8: with the silent flag set, a failing invocation prints nothing on
either stream and still exits with code 1. -/
theorem C8_silent_failure (o : Options) (e : AxiosFailure) :
    runAction { o with silent := true } (axiosOutcome (WireResult.failure e))
      = { stdout := [], stderr := [], exitCode := 1 } := by
  simp [axiosOutcome, runAction]

/-- C3 (amended): each header flag is split at its first colon, the name is
the trimmed text before it and the value the trimmed text after it; an
entry with no colon, or whose RAW text before the colon is empty, is
silently dropped; a kept entry whose pre-colon text is whitespace-only is
nevertheless recorded under the empty trimmed name; a later entry with the
same key overwrites the value stored for the earlier one. -/
theorem C3_header_parsing (acc : List (JStr × JStr)) (h : JStr) :
    (hasColon h = false → headerStep acc h = acc) ∧
    (beforeColon h = [] → hasColon h = true → headerStep acc h = acc) ∧
    (hasColon h = true → beforeColon h ≠ [] →
      headerStep acc h
        = recordSet acc (trimChars (beforeColon h)) (trimChars (afterColon h))) ∧
    (∀ k v, recordGet (recordSet acc k v) k = some v) :=
  ⟨headerStep_of_no_colon acc h,
   fun he hc => headerStep_of_empty_name acc h hc he,
   fun hc hn => headerStep_kept acc h hc hn,
   fun k v => recordGet_recordSet_self acc k v⟩

/-- Witness for C3: a concrete kept header flag with colons in the value. -/
theorem C3_header_parsing_witness :
    headerStep [] (("X-A : b:c ".toList))
      = recordSet [] (("X-A".toList)) (("b:c".toList)) :=
  (C3_header_parsing [] (("X-A : b:c ".toList))).2.2.1 rfl (by decide)

/-- Counterexample to C3 as stated: an entry whose trimmed header name is
empty is not dropped when its raw pre-colon text is whitespace; the entry is
kept under the empty-string key. -/
theorem C3_counterexample :
    trimChars (beforeColon (("  :v".toList))) = [] ∧
    parseHeaders [(("  :v".toList))] = [([], ['v'])] := ⟨rfl, rfl⟩

/-- C10: a header flag whose text after the first colon is empty or
whitespace-only is kept, with the trimmed name mapped to the empty string. -/
theorem C10_empty_value_header (acc : List (JStr × JStr)) (h : JStr)
    (hc : hasColon h = true) (hn : beforeColon h ≠ [])
    (hw : trimChars (afterColon h) = []) :
    headerStep acc h = recordSet acc (trimChars (beforeColon h)) [] ∧
    recordGet (headerStep acc h) (trimChars (beforeColon h)) = some [] := by
  have hk := headerStep_kept acc h hc hn
  rw [hw] at hk
  exact ⟨hk, by rw [hk]; exact recordGet_recordSet_self _ _ _⟩

/-- Witness for C10: the flag X-Empty followed by a colon and spaces ends up
in the record mapped to the empty string. -/
theorem C10_empty_value_header_witness :
    recordGet (headerStep [] (("X-Empty:  ".toList))) (("X-Empty".toList)) = some [] :=
  (C10_empty_value_header [] (("X-Empty:  ".toList)) rfl (by decide) rfl).2

/-- C5 (amended): the user-credentials flag is split on colons; the username
is the text before the first colon, and the password is the SECOND
colon-separated segment only, not the whole remainder; when no colon is
present the password is absent (undefined), not the empty string; when the
flag is truthy the pair is attached to the request. -/
theorem C5_basic_auth (u : JStr) :
    (hasColon u = true →
      parseAuth u = (beforeColon u, some (beforeColon (afterColon u)))) ∧
    (hasColon u = false → parseAuth u = (u, none)) ∧
    (∀ (o : Options) (url : JStr), o.user = some u → u ≠ [] →
      (buildRequest o url).auth = some (parseAuth u)) := by
  refine ⟨parseAuth_of_colon u, parseAuth_of_no_colon u, ?_⟩
  intro o url ho hne
  rw [buildRequest_auth]
  simp [buildAuth, ho, hne]

/-- Witness for C5: concrete credential strings with and without a colon. -/
theorem C5_basic_auth_witness :
    parseAuth (("u:p".toList)) = (['u'], some ['p']) ∧
    parseAuth (("user".toList)) = (("user".toList), none) ∧
    (buildRequest { user := some (("u:p".toList)) } ['x']).auth
      = some (parseAuth (("u:p".toList))) :=
  ⟨(C5_basic_auth (("u:p".toList))).1 rfl,
   (C5_basic_auth (("user".toList))).2.1 rfl,
   (C5_basic_auth (("u:p".toList))).2.2 { user := some (("u:p".toList)) } ['x'] rfl (by decide)⟩

/-- Counterexample to C5 as stated: for user colon p colon q the password is
the single segment p, not the whole remainder p colon q; and with no colon
the password is absent rather than the empty string. -/
theorem C5_counterexample :
    parseAuth (("u:p:q".toList)) = (['u'], some ['p']) ∧
    afterColon (("u:p:q".toList)) = ('p' :: ':' :: 'q' :: []) ∧
    parseAuth (("usr".toList)) = (("usr".toList), none) := ⟨rfl, rfl, rfl⟩

/-- C9: the request body is the first JavaScript-truthy value among data,
dataRaw and dataBinary in that fixed order, an empty string being passed
over as falsy; when every candidate is empty or absent the selected body is
falsy and the headers are left untouched, so no Content-Type is injected. -/
theorem C9_body_precedence (o : Options) (url : JStr) :
    (strTruthy o.data = true → (buildRequest o url).data = o.data) ∧
    (strTruthy o.data = false → strTruthy o.dataRaw = true →
      (buildRequest o url).data = o.dataRaw) ∧
    (strTruthy o.data = false → strTruthy o.dataRaw = false →
      (buildRequest o url).data = o.dataBinary) ∧
    (strTruthy (selectData o) = false →
      strTruthy (buildRequest o url).data = false ∧
      (buildRequest o url).headers = parseHeaders o.header) := by
  refine ⟨?_, ?_, ?_, ?_⟩
  · intro h; rw [buildRequest_data]; exact selectData_first o h
  · intro h1 h2; rw [buildRequest_data]; exact selectData_second o h1 h2
  · intro h1 h2; rw [buildRequest_data]; exact selectData_third o h1 h2
  · intro h
    exact ⟨by rw [buildRequest_data]; exact h,
      by rw [buildRequest_headers]; exact injectContentType_no_data _ _ h⟩

/-- Witness for C9: an empty -d value is passed over in favor of a later
flag, and when all values are empty nothing is injected. -/
theorem C9_body_precedence_witness :
    (buildRequest { data := some [], dataRaw := some ['x'] } ['u']).data = some ['x'] ∧
    strTruthy (buildRequest { data := some [], dataBinary := some [] } ['u']).data = false ∧
    (buildRequest { data := some [], dataBinary := some [] } ['u']).headers = [] :=
  ⟨(C9_body_precedence { data := some [], dataRaw := some ['x'] } ['u']).2.1 rfl rfl,
   ((C9_body_precedence { data := some [], dataBinary := some [] } ['u']).2.2.2 rfl).1,
   ((C9_body_precedence { data := some [], dataBinary := some [] } ['u']).2.2.2 rfl).2⟩

/-- C4 (amended): when a body is supplied and neither the EXACT header key
Content-Type nor the exact key content-type holds a truthy value, the built
request's headers contain Content-Type mapped to application/json; a truthy
value under either of those two exact keys suppresses the injection, but a
Content-Type header under any other casing does not. -/
theorem C4_content_type_injection (o : Options) (url : JStr) :
    (strTruthy (selectData o) = true →
      strTruthy (recordGet (parseHeaders o.header) (("Content-Type".toList))) = false →
      strTruthy (recordGet (parseHeaders o.header) (("content-type".toList))) = false →
      recordGet (buildRequest o url).headers (("Content-Type".toList))
        = some (("application/json".toList))) ∧
    (strTruthy (recordGet (parseHeaders o.header) (("Content-Type".toList))) = true →
      (buildRequest o url).headers = parseHeaders o.header) ∧
    (strTruthy (recordGet (parseHeaders o.header) (("content-type".toList))) = true →
      (buildRequest o url).headers = parseHeaders o.header) := by
  refine ⟨?_, ?_, ?_⟩
  · intro hd h1 h2
    rw [buildRequest_headers, injectContentType_pos _ _ hd h1 h2]
    exact recordGet_recordSet_self _ _ _
  · intro h1
    rw [buildRequest_headers]
    exact injectContentType_has_exact _ _ h1
  · intro h2
    rw [buildRequest_headers]
    exact injectContentType_has_lower _ _ h2

/-- Witness for C4: a body with no explicit Content-Type gets the injected
header, and an exact-key Content-Type suppresses the injection. -/
theorem C4_content_type_injection_witness :
    recordGet (buildRequest { data := some ['x'] } ['u']).headers (("Content-Type".toList))
      = some (("application/json".toList)) ∧
    (buildRequest { data := some ['x'],
                    header := [("Content-Type: text/css".toList)] } ['u']).headers
      = parseHeaders [("Content-Type: text/css".toList)] :=
  ⟨(C4_content_type_injection { data := some ['x'] } ['u']).1 rfl rfl rfl,
   (C4_content_type_injection { data := some ['x'],
                                header := [("Content-Type: text/css".toList)] } ['u']).2.1 rfl⟩

/-- Counterexample to C4 as stated: a Content-Type header supplied in upper
casing matches Content-Type case-insensitively, yet the injection still
happens, adding a second Content-Type entry with value application/json. -/
theorem C4_counterexample :
    lowerStr (("CONTENT-TYPE".toList)) = lowerStr (("Content-Type".toList)) ∧
    recordGet (parseHeaders [("CONTENT-TYPE: text/plain".toList)]) (("CONTENT-TYPE".toList))
      = some (("text/plain".toList)) ∧
    recordGet (buildRequest { data := some ['x'],
                              header := [("CONTENT-TYPE: text/plain".toList)] } ['u']).headers
      (("Content-Type".toList)) = some (("application/json".toList)) := ⟨rfl, rfl, rfl⟩

/-- C6: a body not rendered as JSON, either because the content type does
not claim application/json and the datum is not a pre-decoded structured
value, or because the content type claims JSON but the text fails to parse,
is printed exactly as received; the parse failure is swallowed and no error
surfaces. -/
theorem C6_raw_fallback (ct : Option JStr) (dat : JsData)
    (h1 : isStructuredData dat = false) :
    (isJsonHdr ct = false → renderBody ct dat = asText dat) ∧
    (jsonParse (asText dat) = none → renderBody ct dat = asText dat) :=
  ⟨fun h2 => renderBody_not_json ct dat h1 h2,
   fun h2 => renderBody_parse_fail ct dat h1 h2⟩

/-- Witness for C6: a non-JSON content type passes the text through, and a
JSON content type over unparsable text falls back to the raw text. -/
theorem C6_raw_fallback_witness :
    renderBody (some (("text/html".toList))) (JsData.raw (("hello".toList)))
      = ("hello".toList) ∧
    renderBody (some (("application/json".toList))) (JsData.raw (("not json".toList)))
      = ("not json".toList) :=
  ⟨(C6_raw_fallback (some (("text/html".toList))) (JsData.raw (("hello".toList))) rfl).1 rfl,
   (C6_raw_fallback (some (("application/json".toList)))
      (JsData.raw (("not json".toList))) rfl).2 rfl⟩

/-- C7: a response with status at least 400 outside silent mode puts exactly
the warning line on the error stream while the body still goes to the output
stream and the exit code stays 0; the warning text contains the decimal
status code and the reason text. -/
theorem C7_status_warning (o : Options) (r : AxiosResponse)
    (h4 : 400 ≤ r.status) (hs : o.silent = false) :
    (runAction o (axiosOutcome (WireResult.response r))).stderr
      = [warnLine r.status r.statusText] ∧
    natToChars r.status <:+: warnLine r.status r.statusText ∧
    r.statusText <:+: warnLine r.status r.statusText ∧
    (∃ pre, (runAction o (axiosOutcome (WireResult.response r))).stdout
      = pre ++ [renderBody (recordGet r.headers (("content-type".toList))) r.data]) ∧
    (runAction o (axiosOutcome (WireResult.response r))).exitCode = 0 := by
  have hax : axiosOutcome (WireResult.response r) = ClientOutcome.ok r := by
    simp [axiosOutcome, validateStatus]
  rw [hax]
  refine ⟨?_, ?_, ?_, ?_, ?_⟩
  · simp [runAction, hs, h4]
  · exact ⟨("Warning: Request failed with status ".toList), ' ' :: r.statusText,
      by simp [warnLine]⟩
  · exact ⟨("Warning: Request failed with status ".toList) ++ natToChars r.status ++ [' '],
      [], by simp [warnLine]⟩
  · exact ⟨if o.includeHdrs then
        statusLine r :: (r.headers.map fun kv => kv.1 ++ ':' :: ' ' :: kv.2) ++ [[]]
      else [], by simp [runAction]⟩
  · simp [runAction]

/-- Witness for C7: a concrete 404 with default options. -/
theorem C7_status_warning_witness :
    (runAction {} (axiosOutcome (WireResult.response
        ⟨404, ("Not Found".toList), [], none, JsData.raw []⟩))).stderr
      = [warnLine 404 (("Not Found".toList))] ∧
    (runAction {} (axiosOutcome (WireResult.response
        ⟨404, ("Not Found".toList), [], none, JsData.raw []⟩))).exitCode = 0 :=
  ⟨(C7_status_warning {} ⟨404, ("Not Found".toList), [], none, JsData.raw []⟩
      (by decide) rfl).1,
   (C7_status_warning {} ⟨404, ("Not Found".toList), [], none, JsData.raw []⟩
      (by decide) rfl).2.2.2.2⟩

/-- C2 (amended): when the content type claims application/json, the body
text parses to a value v, and the datum reaches the renderer either raw or
pre-decoded by the client, then as long as the decoded value is not a bare
JSON string the rendered output is the 2-space-indented serialization of v
and its parse equals the parse of the original body text. -/
theorem C2_json_roundtrip (ct : Option JStr) (s : JStr) (v : Json) (dat : JsData)
    (hct : isJsonHdr ct = true) (hsv : jsonParse s = some v)
    (hdel : deliveredAs s dat) (hnostr : ∀ t, dat ≠ JsData.decoded (Json.str t)) :
    renderBody ct dat = highlightJson (jstringify v) ∧
    jsonParse (renderBody ct dat) = jsonParse s := by
  have hwf : jwf v = true := jsonParse_wf s v hsv
  have hrt : jsonParse (jstringify v) = some v := stringify_parse v hwf
  have hmain : renderBody ct dat = highlightJson (jstringify v) := by
    rcases hdel with hraw | ⟨w, hw, hdec⟩
    · subst hraw
      simp [renderBody, asText, hct, hsv]
    · have hwv : w = v := by rw [hw] at hsv; exact Option.some.inj hsv
      subst hwv
      subst hdec
      cases w with
      | str t => exact absurd rfl (hnostr t)
      | arr xs => simp [renderBody]
      | obj es => simp [renderBody]
      | null =>
        have hsc : jsonParse (scalarText Json.null) = some Json.null := by
          rw [scalarText_eq_jstringify Json.null (fun t h => Json.noConfusion h)
            (fun xs h => Json.noConfusion h) (fun es h => Json.noConfusion h)]
          exact hrt
        simp [renderBody, asText, hct, hsc]
      | bool b =>
        have hsc : jsonParse (scalarText (Json.bool b)) = some (Json.bool b) := by
          rw [scalarText_eq_jstringify (Json.bool b) (fun t h => Json.noConfusion h)
            (fun xs h => Json.noConfusion h) (fun es h => Json.noConfusion h)]
          exact hrt
        simp [renderBody, asText, hct, hsc]
      | num n =>
        have hsc : jsonParse (scalarText (Json.num n)) = some (Json.num n) := by
          rw [scalarText_eq_jstringify (Json.num n) (fun t h => Json.noConfusion h)
            (fun xs h => Json.noConfusion h) (fun es h => Json.noConfusion h)]
          exact hrt
        simp [renderBody, asText, hct, hsc]
  refine ⟨hmain, ?_⟩
  rw [hmain, hsv]
  show jsonParse (jstringify v) = some v
  exact hrt

/-- Witness for C2: a raw JSON array body under a JSON content type renders
as its 2-space-indented serialization. -/
theorem C2_json_roundtrip_witness :
    renderBody (some (("application/json".toList))) (JsData.raw (("[1]".toList)))
      = highlightJson (jstringify (Json.arr [Json.num 1])) :=
  (C2_json_roundtrip (some (("application/json".toList))) (("[1]".toList))
    (Json.arr [Json.num 1]) (JsData.raw (("[1]".toList))) rfl rfl (Or.inl rfl)
    (fun t h => JsData.noConfusion h)).1

/-- Counterexample to C2 as stated: the body text quote hi quote is valid
JSON under a JSON content type, but the client pre-decodes it to a bare
string, the renderer prints the unquoted characters hi, and that output no
longer parses as JSON, so the round trip fails. -/
theorem C2_counterexample :
    isJsonHdr (some (("application/json".toList))) = true ∧
    jsonParse (("\"hi\"".toList)) = some (Json.str ['h', 'i']) ∧
    renderBody (some (("application/json".toList))) (JsData.decoded (Json.str ['h', 'i']))
      = ['h', 'i'] ∧
    jsonParse ['h', 'i'] = none := ⟨rfl, rfl, rfl, rfl⟩
